import Mathlib

/-!
Verification of the sampler voice core
(`src/modules/juce_audio_formats/sampler/juce_Sampler.cpp`).

Machine reals (`float` / `double`) are embedded as rationals `ℚ`; `int`
casts of doubles are embedded as truncation toward zero (`cTrunc`).  An
`AudioBuffer<float>` is a list of channels, each a list of samples.  The
ADSR envelope generator is an external black box in the source, so every
operation is parameterised over an abstract model `AdsrModel A` of its
interface; `std::pow (2.0, x)` is likewise passed in as an abstract
function `pow2 : ℚ → ℚ`.

The render functions additionally return the list of output positions
written (channel, frame) and the list of sample-data frame indices read,
so that frame-effect and safety claims can be stated.
-/

namespace Sampler

variable {A : Type}

/-- An `AudioBuffer<float>`: channels, each a list of samples. -/
abbrev Buf := List (List ℚ)

/-- C-style cast of a floating value to `int`: truncation toward zero. -/
def cTrunc (q : ℚ) : ℤ := if 0 ≤ q then ⌊q⌋ else -⌊-q⌋

/-- Read a sample: channel `c`, frame `i`; out-of-range reads default to 0
(the index lists returned by the render functions record which reads the
source actually performs, so out-of-range indices remain observable). -/
def getQ (b : Buf) (c : ℕ) (i : ℤ) : ℚ :=
  if 0 ≤ i then (b.getD c []).getD i.toNat 0 else 0

/-- Write sample `x` at channel `c`, frame `i` (no-op out of range). -/
def bufSet (b : Buf) (c i : ℕ) (x : ℚ) : Buf :=
  b.set c ((b.getD c []).set i x)

/-- `tabulate n f = [f 0, …, f (n-1)]`. -/
def tabulate {α : Type} : (n : ℕ) → (f : ℕ → α) → List α
  | 0, _ => []
  | n + 1, f => f 0 :: tabulate n (fun i => f (i + 1))

/-- Rebuild a row applying `f` to each (index, value) pair. -/
def mapIdxQ (f : ℕ → ℚ → ℚ) (l : List ℚ) : List ℚ :=
  tabulate l.length (fun i => f i (l.getD i 0))

/-- `AudioBuffer::clear()`: zero every sample of every channel. -/
def clearAll (b : Buf) : Buf :=
  b.map (mapIdxQ (fun _ _ => 0))

/-- `AudioBuffer::clear (start, count)`: zero `[start, start+count)` on all
channels. -/
def clearRange (b : Buf) (start count : ℕ) : Buf :=
  b.map (mapIdxQ (fun i x => if start ≤ i ∧ i < start + count then 0 else x))

/-- Modelled from the spec: `AudioBuffer::applyGainRamp (channel, start,
count, g0, g1)` (a buffer primitive the spec lists as an external
collaborator) multiplies each sample in `[start, start+count)` of one
channel by a linearly interpolated gain running from `g0` toward `g1`. -/
def applyGainRamp (b : Buf) (ch start count : ℕ) (g0 g1 : ℚ) : Buf :=
  b.set ch (mapIdxQ
    (fun i x =>
      if start ≤ i ∧ i < start + count then
        x * (g0 + (g1 - g0) * ((i - start : ℕ) : ℚ) / (count : ℚ))
      else x)
    (b.getD ch []))

/-- `AudioBuffer::copyFrom (channel, 0, src, n)` restricted to one row:
overwrite the first `n` samples of `dst` with those of `src`. -/
def copyRow (dst src : List ℚ) (n : ℕ) : List ℚ :=
  mapIdxQ (fun i x => if i < n then src.getD i 0 else x) dst

/-- ADSR parameters stored by a sound (attack / release seconds). -/
structure Params where
  attack : ℚ
  release : ℚ
deriving DecidableEq

/-- Abstract model of the external `juce::ADSR` envelope generator (a
black box per the spec): state type `A` plus the operations the sampler
invokes.  `next` is `getNextSample`, returning the sample and the
successor state. -/
structure AdsrModel (A : Type) where
  setSampleRate : ℚ → A → A
  setParameters : Params → A → A
  noteOn : A → A
  noteOff : A → A
  reset : A → A
  next : A → ℚ × A

/-- `SamplerSound` data: an empty (unplayable) sound keeps `data = none`,
mirroring the null `data` pointer of a sound built from an empty source. -/
structure SamplerSound where
  name : String
  sourceSampleRate : ℚ
  midiNotes : List ℤ
  midiRootNote : ℤ
  length : ℤ := 0
  data : Option Buf := none
  params : Params := ⟨1/10, 1/10⟩
deriving DecidableEq

/-- `SamplerSound::appliesToNote`. -/
def SamplerSound.appliesToNote (s : SamplerSound) (midiNoteNumber : ℤ) : Prop :=
  midiNoteNumber ∈ s.midiNotes

/-- The PCM source handed to the `SamplerSound` constructor
(`AudioFormatReader`): rate, frame count, channel count and sample data. -/
structure AudioFormatReader where
  sampleRate : ℚ
  lengthInSamples : ℤ
  numChannels : ℕ
  chan : Buf
deriving DecidableEq

/-- Modelled from the spec: `AudioFormatReader::read (dest, 0, frames, 0,
true, true)` (the decoder is an external collaborator; the spec says
"read `length + 4` frames from source offset 0 (zero-fill beyond source
end)").  Builds `nch` channels of `frames` samples, taking frame `i`
from the source when `i < lengthInSamples` and zero otherwise. -/
def readInto (source : AudioFormatReader) (nch frames : ℕ) : Buf :=
  tabulate nch (fun c =>
    tabulate frames (fun i =>
      if (i : ℤ) < source.lengthInSamples then (source.chan.getD c []).getD i 0 else 0))

/-- `SamplerSound::SamplerSound`. -/
def makeSamplerSound (soundName : String) (source : AudioFormatReader)
    (notes : List ℤ) (midiNoteForNormalPitch : ℤ)
    (attackTimeSecs releaseTimeSecs maxSampleLengthSeconds : ℚ) : SamplerSound :=
  if source.sampleRate > 0 ∧ source.lengthInSamples > 0 then
    let length := min source.lengthInSamples (cTrunc (maxSampleLengthSeconds * source.sampleRate))
    { name := soundName
      sourceSampleRate := source.sampleRate
      midiNotes := notes
      midiRootNote := midiNoteForNormalPitch
      length := length
      data := some (readInto source (min 2 source.numChannels) (length + 4).toNat)
      params := ⟨attackTimeSecs, releaseTimeSecs⟩ }
  else
    { name := soundName
      sourceSampleRate := source.sampleRate
      midiNotes := notes
      midiRootNote := midiNoteForNormalPitch }

/-- A `SynthesiserSound*` handed to the voice: either the expected
`SamplerSound` variant or some other sound type. -/
inductive SynthesiserSound
  | sampler (s : SamplerSound)
  | other
deriving DecidableEq

/-- `SamplerVoice::canPlaySound` (the `dynamic_cast` succeeds exactly on
the `SamplerSound` variant). -/
def canPlaySound : SynthesiserSound → Bool
  | SynthesiserSound.sampler _ => true
  | SynthesiserSound.other => false

/-- `SamplerVoice` state.  `pitchRate` embeds the source's pitch-ratio
member; `currentSound` is the base-class currently-playing-sound
reference (set by the host synthesiser, cleared by `clearCurrentNote`);
`hostSampleRate` is the base-class `getSampleRate()`. -/
structure Voice (A : Type) where
  bufferSize : ℕ
  fadeBuffer : Buf
  pitchRate : ℚ := 0
  sourceSamplePosition : ℚ := 0
  lgain : ℚ := 0
  rgain : ℚ := 0
  adsr : A
  startingGain : ℚ := 0
  isFading : Bool := false
  renderingFade : Bool := false
  currentSound : Option SamplerSound := none
  hostSampleRate : ℚ := 0
deriving DecidableEq

/-- `SamplerVoice::SamplerVoice (bufferSize)`: a fresh voice with a 2 ×
`bufferSize` fade scratch buffer. -/
def initVoice (iBufferSize : ℕ) (a : A) : Voice A :=
  { bufferSize := iBufferSize
    fadeBuffer := List.replicate 2 (List.replicate iBufferSize 0)
    adsr := a }

/-- Result of one `renderNextBlock` call: updated voice, updated output
buffer, output positions written (channel, frame) and sample-data frame
indices read. -/
structure RenderOut (A : Type) where
  voice : Voice A
  out : Buf
  writes : List (ℕ × ℤ)
  reads : List ℤ
deriving DecidableEq

/-- The write set of the fade-emission copy on one channel. -/
def writesRow (c n : ℕ) : List (ℕ × ℤ) :=
  tabulate n (fun i => (c, (i : ℤ)))

/-- The fade-emission loop of `renderNextBlock` over channels
`0 … nch-1`: channels the fade buffer also has are overwritten from it
(at offset 0, regardless of `startSample`). -/
def fadeEmit (fade : Buf) (numSamples : ℕ) : (nch : ℕ) → Buf → Buf × List (ℕ × ℤ)
  | 0, out => (out, [])
  | n + 1, out =>
    let p := fadeEmit fade numSamples n out
    if n < fade.length then
      (p.1.set n (copyRow (p.1.getD n []) (fade.getD n []) numSamples),
       p.2 ++ writesRow n numSamples)
    else p

/-- The `while (--numSamples >= 0)` playback loop of `renderNextBlock`.
`stop` is the `stopNote (0.0f, false)` call performed on overrun (it
returns the updated voice and the data reads it performs); `idx` is the
current output frame (starting at `startSample`); `capture` is the
`captureStartingGain` local. -/
def playLoop (M : AdsrModel A) (stop : Voice A → Voice A × List ℤ) (snd : SamplerSound) :
    (n : ℕ) → (idx : ℕ) → (capture : Bool) → Voice A → Buf → RenderOut A
  | 0, _, _, v, out => ⟨v, out, [], []⟩
  | n + 1, idx, capture, v, out =>
    let dat := snd.data.getD []
    let pos : ℤ := cTrunc v.sourceSamplePosition
    let alpha : ℚ := v.sourceSamplePosition - (pos : ℚ)
    let invAlpha : ℚ := 1 - alpha
    let l0 : ℚ := getQ dat 0 pos * invAlpha + getQ dat 0 (pos + 1) * alpha
    let r0 : ℚ :=
      if 1 < dat.length then getQ dat 1 pos * invAlpha + getQ dat 1 (pos + 1) * alpha
      else l0
    let step := M.next v.adsr
    let envelopeValue := step.1
    let sg : ℚ := if capture then envelopeValue else v.startingGain
    let l : ℚ := l0 * (v.lgain * envelopeValue)
    let r : ℚ := r0 * (v.rgain * envelopeValue)
    let out' : Buf :=
      if 1 < out.length then
        bufSet (bufSet out 0 idx (getQ out 0 (idx : ℤ) + l)) 1 idx (getQ out 1 (idx : ℤ) + r)
      else
        bufSet out 0 idx (getQ out 0 (idx : ℤ) + (l + r) * (1 / 2))
    let ws : List (ℕ × ℤ) :=
      if 1 < out.length then [(0, (idx : ℤ)), (1, (idx : ℤ))] else [(0, (idx : ℤ))]
    let rds : List ℤ := [pos, pos + 1]
    let v' : Voice A :=
      { v with adsr := step.2, startingGain := sg,
               sourceSamplePosition := v.sourceSamplePosition + v.pitchRate }
    if v'.sourceSamplePosition > (snd.length : ℚ) then
      let s := stop v'
      ⟨s.1, out', ws, rds ++ s.2⟩
    else
      let rest := playLoop M stop snd n (idx + 1) false v' out'
      ⟨rest.voice, rest.out, ws ++ rest.writes, rds ++ rest.reads⟩

/-- `SamplerVoice::renderNextBlock`, parameterised over the hard-stop
action `stop` invoked on overrun.  Three branches: fade emission when
`isFading`, playback when a sound is current, silence otherwise. -/
def renderCore (M : AdsrModel A) (stop : Voice A → Voice A × List ℤ)
    (v : Voice A) (out : Buf) (startSample numSamples : ℕ) : RenderOut A :=
  if v.isFading then
    let e := fadeEmit v.fadeBuffer numSamples out.length out
    ⟨{ v with isFading := false }, e.1, e.2, []⟩
  else
    match v.currentSound with
    | some playingSound => playLoop M stop playingSound numSamples startSample true v out
    | none => ⟨v, out, [], []⟩

/-- The hard-stop branch of `SamplerVoice::stopNote` (allowTailOff =
false).  The nested `renderNextBlock (*fadeBuffer, 0, bufferSize)` call
runs with `renderingFade` set, so a hard stop triggered inside it
returns at the reentrancy guard: its stop action is the identity
(`renderCore_congr` below proves this stratification faithful). -/
def stopNoteHard (M : AdsrModel A) (v : Voice A) : Voice A × List ℤ :=
  if v.renderingFade then (v, [])
  else
    let v0 : Voice A := { v with fadeBuffer := clearAll v.fadeBuffer, renderingFade := true }
    let r := renderCore M (fun s => (s, [])) v0 v0.fadeBuffer 0 v.bufferSize
    let v1 : Voice A := { r.voice with renderingFade := false, fadeBuffer := r.out }
    let endSample : ℤ :=
      if v1.pitchRate < 1 then cTrunc ((v.bufferSize : ℚ) * v1.pitchRate)
      else (v.bufferSize : ℤ)
    let fb1 := applyGainRamp v1.fadeBuffer 0 0 endSample.toNat v1.startingGain 0
    let fb2 :=
      if 1 < fb1.length then applyGainRamp fb1 1 0 endSample.toNat v1.startingGain 0
      else fb1
    let fb3 := clearRange fb2 endSample.toNat (v.bufferSize - endSample.toNat)
    ({ v1 with fadeBuffer := fb3, isFading := true, currentSound := none,
               adsr := M.reset v1.adsr },
     r.reads)

/-- `SamplerVoice::stopNote`. -/
def stopNote (M : AdsrModel A) (v : Voice A) (_velocity : ℚ) (allowTailOff : Bool) :
    Voice A × List ℤ :=
  if allowTailOff then ({ v with adsr := M.noteOff v.adsr }, [])
  else stopNoteHard M v

/-- `SamplerVoice::renderNextBlock` proper: the overrun stop action is
the full hard stop. -/
def renderNextBlock (M : AdsrModel A) (v : Voice A) (out : Buf)
    (startSample numSamples : ℕ) : RenderOut A :=
  renderCore M (fun s => stopNoteHard M s) v out startSample numSamples

/-- `SamplerVoice::startNote`.  `pow2 x` embeds `std::pow (2.0, x)`.  A
sound of the wrong variant only trips a debug assertion in the source,
leaving the voice untouched. -/
def startNote (M : AdsrModel A) (pow2 : ℚ → ℚ) (v : Voice A)
    (midiNoteNumber : ℤ) (velocity : ℚ) (s : SynthesiserSound) : Voice A :=
  match s with
  | SynthesiserSound.sampler sound =>
    { v with
      pitchRate := pow2 (((midiNoteNumber - sound.midiRootNote : ℤ) : ℚ) / 12)
                     * sound.sourceSampleRate / v.hostSampleRate
      sourceSamplePosition := 0
      lgain := velocity
      rgain := velocity
      adsr := M.noteOn (M.setParameters sound.params
                (M.setSampleRate sound.sourceSampleRate v.adsr)) }
  | SynthesiserSound.other => v

/-- Iterate `getNextSample` state transitions `n` times. -/
def adsrIter (M : AdsrModel A) : ℕ → A → A
  | 0, a => a
  | n + 1, a => adsrIter M n (M.next a).2

/-- The `k`-th envelope sample drawn from state `a`. -/
def envAt (M : AdsrModel A) (a : A) (k : ℕ) : ℚ :=
  (M.next (adsrIter M k a)).1

/-- Voice state after `m ≥ 1` playback-loop iterations that performed no
stop: position advanced by `m` pitch steps, ADSR advanced `m` samples,
`startingGain` snapshotted on the first iteration when `capture` is on. -/
def advance (M : AdsrModel A) (v : Voice A) (capture : Bool) (m : ℕ) : Voice A :=
  { v with
    sourceSamplePosition := v.sourceSamplePosition + (m : ℚ) * v.pitchRate
    adsr := adsrIter M m v.adsr
    startingGain := if capture then (M.next v.adsr).1 else v.startingGain }

/-- Linear interpolation of channel `c` at fractional position `p`, as
the playback loop computes it: `pos = trunc p`, `alpha = p − pos`,
`value = dat[c][pos]·(1−alpha) + dat[c][pos+1]·alpha`. -/
def interpAt (dat : Buf) (c : ℕ) (p : ℚ) : ℚ :=
  getQ dat c (cTrunc p) * (1 - (p - ((cTrunc p : ℤ) : ℚ)))
    + getQ dat c (cTrunc p + 1) * (p - ((cTrunc p : ℤ) : ℚ))

/-- The left-channel source sample the loop interpolates at position `p`. -/
def frameL (snd : SamplerSound) (p : ℚ) : ℚ :=
  interpAt (snd.data.getD []) 0 p

/-- The right-channel source sample at position `p` (`= frameL` when the
sound is mono). -/
def frameR (snd : SamplerSound) (p : ℚ) : ℚ :=
  if 1 < (snd.data.getD []).length then interpAt (snd.data.getD []) 1 p
  else interpAt (snd.data.getD []) 0 p

/-- All written output positions lie in `[s, s + n)`. -/
def writesWithin (ws : List (ℕ × ℤ)) (s n : ℕ) : Prop :=
  ∀ w ∈ ws, (s : ℤ) ≤ w.2 ∧ w.2 < (s : ℤ) + (n : ℤ)

instance (ws : List (ℕ × ℤ)) (s n : ℕ) : Decidable (writesWithin ws s n) := by
  unfold writesWithin; infer_instance

/-! ### Concrete instances used by witnesses and counterexamples -/

/-- A concrete ADSR instantiation: the state is the stream of envelope
samples still to be produced; configuration calls leave it unchanged and
`reset` empties it. -/
def demoAdsr : AdsrModel (List ℚ) :=
  { setSampleRate := fun _ a => a
    setParameters := fun _ a => a
    noteOn := fun a => a
    noteOff := fun a => a
    reset := fun _ => []
    next := fun a => (a.headD 0, a.tail) }

/-- A concrete stand-in for `std::pow (2.0, ·)` good at the exponents the
witnesses use. -/
def pow2W : ℚ → ℚ := fun q => if q = 0 then 1 else if q = 1 then 2 else 0

/-- Empty sound name for concrete sounds. -/
def sName : String := ""

/-- Mono sound: 2 usable frames, 6 allocated, constant value 4. -/
def sndX : SamplerSound :=
  { name := sName, sourceSampleRate := 48000, midiNotes := [60], midiRootNote := 60,
    length := 2, data := some [[4, 4, 4, 4, 4, 4]], params := ⟨0, 0⟩ }

/-- A voice actively playing `sndX` (block size 2). -/
def vPlay : Voice (List ℚ) :=
  { bufferSize := 2, fadeBuffer := [[0, 0], [0, 0]], pitchRate := 1,
    sourceSamplePosition := 0, lgain := 1, rgain := 1, adsr := [1, 1, 1, 1],
    startingGain := 0, isFading := false, renderingFade := false,
    currentSound := some sndX, hostSampleRate := 48000 }

/-- `vPlay` after one hard stop: a fade ramp is pending in the buffer. -/
def vStopped : Voice (List ℚ) := (stopNote demoAdsr vPlay 0 false).1

/-- A voice with a pending fade and a freshly armed note on the same
voice (the host set `currentSound` again before the fade was emitted). -/
def vFadePending : Voice (List ℚ) :=
  { vPlay with isFading := true, fadeBuffer := [[7, 7], [7, 7]] }

/-- Sound for the overrun read: 8 usable frames, 12 allocated. -/
def snd5 : SamplerSound :=
  { name := sName, sourceSampleRate := 48000, midiNotes := [60], midiRootNote := 60,
    length := 8, data := some [[1, 1, 1, 1, 1, 1, 1, 1, 1, 1, 1, 1]], params := ⟨0, 0⟩ }

/-- Voice playing `snd5` two octaves up (pitch step 4 frames/sample). -/
def v5 : Voice (List ℚ) :=
  { bufferSize := 2, fadeBuffer := [[0, 0], [0, 0]], pitchRate := 4,
    sourceSamplePosition := 0, lgain := 1, rgain := 1, adsr := [1, 1, 1, 1, 1, 1],
    startingGain := 0, currentSound := some snd5, hostSampleRate := 48000 }

/-- A 10-frame source that the length cap truncates to 5 frames. -/
def src4 : AudioFormatReader :=
  { sampleRate := 1, lengthInSamples := 10, numChannels := 1,
    chan := [[1, 1, 1, 1, 1, 1, 1, 1, 1, 1]] }

/-- The sound built from `src4` with a 5-second cap at rate 1. -/
def snd4 : SamplerSound := makeSamplerSound sName src4 [] 60 0 0 5

/-- A short source that is not truncated (cap 10 s at rate 1). -/
def srcW4 : AudioFormatReader :=
  { sampleRate := 1, lengthInSamples := 2, numChannels := 1, chan := [[5, 7]] }

/-- Mono sound for the interpolation witness: frames 3, 5, 7 then padding. -/
def sndW1 : SamplerSound :=
  { name := sName, sourceSampleRate := 48000, midiNotes := [60], midiRootNote := 60,
    length := 2, data := some [[3, 5, 7, 0, 0, 0]], params := ⟨0, 0⟩ }

/-- Voice playing `sndW1` at pitch step 1/2 with envelope samples 2. -/
def vW1 : Voice (List ℚ) :=
  { bufferSize := 4, fadeBuffer := [[0, 0, 0, 0], [0, 0, 0, 0]], pitchRate := 1 / 2,
    sourceSamplePosition := 0, lgain := 1, rgain := 1, adsr := [2, 2, 2],
    startingGain := 0, currentSound := some sndW1, hostSampleRate := 48000 }

/-- Sound for the auto-stop witness: a single usable frame. -/
def snd7 : SamplerSound :=
  { name := sName, sourceSampleRate := 48000, midiNotes := [60], midiRootNote := 60,
    length := 1, data := some [[1, 1, 1, 1, 1]], params := ⟨0, 0⟩ }

/-- Voice playing `snd7` at unity pitch (block size 1). -/
def v7 : Voice (List ℚ) :=
  { bufferSize := 1, fadeBuffer := [[0], [0]], pitchRate := 1,
    sourceSamplePosition := 0, lgain := 1, rgain := 1, adsr := [1, 1, 1, 1],
    startingGain := 0, currentSound := some snd7, hostSampleRate := 48000 }

/-- Idle voice used by the note-on witnesses. -/
def v9 : Voice (List ℚ) :=
  { bufferSize := 1, fadeBuffer := [[0], [0]], adsr := [], hostSampleRate := 48000 }

/-! ### Elementary list lemmas -/

theorem tabulate_length {α : Type} : ∀ (n : ℕ) (f : ℕ → α), (tabulate n f).length = n
  | 0, _ => rfl
  | n + 1, f => by simp [tabulate, tabulate_length n]

theorem tabulate_getD {α : Type} (d : α) :
    ∀ (n i : ℕ) (f : ℕ → α), i < n → (tabulate n f).getD i d = f i
  | n + 1, 0, f, _ => rfl
  | n + 1, i + 1, f, h => by
    simpa [tabulate] using tabulate_getD d n i (fun j => f (j + 1)) (by omega)

theorem mem_tabulate {α : Type} :
    ∀ (n : ℕ) (f : ℕ → α) (x : α), x ∈ tabulate n f → ∃ i, i < n ∧ x = f i
  | 0, _, x, h => by simp [tabulate] at h
  | n + 1, f, x, h => by
    rcases List.mem_cons.mp h with h0 | hmem
    · exact ⟨0, by omega, h0⟩
    · obtain ⟨i, hi, hx⟩ := mem_tabulate n _ x hmem
      exact ⟨i + 1, by omega, hx⟩

theorem tabulate_getD_ge {α : Type} (d : α) (n i : ℕ) (f : ℕ → α) (h : n ≤ i) :
    (tabulate n f).getD i d = d := by
  apply List.getD_eq_default
  simpa [tabulate_length]

theorem getD_set_self {α : Type} (d : α) :
    ∀ (l : List α) (i : ℕ) (x : α), i < l.length → (l.set i x).getD i d = x
  | a :: l, 0, x, _ => rfl
  | a :: l, i + 1, x, h => by
    simpa [List.getD_cons_succ] using getD_set_self d l i x (by simpa using h)

theorem getD_set_ne {α : Type} (d : α) :
    ∀ (l : List α) (i j : ℕ) (x : α), i ≠ j → (l.set i x).getD j d = l.getD j d
  | [], _, _, _, _ => by simp
  | a :: l, 0, 0, x, h => absurd rfl h
  | a :: l, 0, j + 1, x, h => by simp [List.getD_cons_succ]
  | a :: l, i + 1, 0, x, h => by simp [List.getD_cons_zero]
  | a :: l, i + 1, j + 1, x, h => by
    simpa [List.getD_cons_succ] using getD_set_ne d l i j x (fun hh => h (by rw [hh]))

theorem set_oob {α : Type} :
    ∀ (l : List α) (i : ℕ) (x : α), l.length ≤ i → l.set i x = l
  | [], _, _, _ => rfl
  | a :: l, 0, x, h => by simp at h
  | a :: l, i + 1, x, h => by
    simpa using set_oob l i x (by simpa using h)

theorem set_getD_self {α : Type} (d : α) :
    ∀ (l : List α) (i : ℕ), l.set i (l.getD i d) = l
  | [], _ => rfl
  | a :: l, 0 => rfl
  | a :: l, i + 1 => by simpa [List.getD_cons_succ] using set_getD_self d l i

/-! ### Buffer access lemmas -/

theorem length_bufSet (b : Buf) (c i : ℕ) (x : ℚ) :
    (bufSet b c i x).length = b.length := by
  simp [bufSet]

theorem row_bufSet_self (b : Buf) (c i : ℕ) (x : ℚ) (hc : c < b.length) :
    (bufSet b c i x).getD c [] = (b.getD c []).set i x :=
  getD_set_self [] b c ((b.getD c []).set i x) hc

theorem row_bufSet_ne (b : Buf) (c i : ℕ) (x : ℚ) (c' : ℕ) (hc : c ≠ c') :
    (bufSet b c i x).getD c' [] = b.getD c' [] :=
  getD_set_ne [] b c c' ((b.getD c []).set i x) hc

theorem chanLen_bufSet (b : Buf) (c i : ℕ) (x : ℚ) (c' : ℕ) :
    ((bufSet b c i x).getD c' []).length = (b.getD c' []).length := by
  by_cases hcc : c = c'
  · subst hcc
    by_cases hlt : c < b.length
    · rw [row_bufSet_self b c i x hlt, List.length_set]
    · rw [bufSet, set_oob _ _ _ (le_of_not_lt (by simpa using hlt))]
  · rw [row_bufSet_ne b c i x c' hcc]

theorem getQ_natCast (b : Buf) (c : ℕ) (i : ℕ) :
    getQ b c (i : ℤ) = (b.getD c []).getD i 0 := by
  simp [getQ]

theorem getQ_bufSet_self (b : Buf) (c i : ℕ) (x : ℚ)
    (hc : c < b.length) (hi : i < (b.getD c []).length) :
    getQ (bufSet b c i x) c (i : ℤ) = x := by
  rw [getQ_natCast, row_bufSet_self b c i x hc, getD_set_self 0 _ i x hi]

theorem getQ_bufSet_ne (b : Buf) (c i : ℕ) (x : ℚ) (c' : ℕ) (i' : ℤ)
    (h : c ≠ c' ∨ (i : ℤ) ≠ i') :
    getQ (bufSet b c i x) c' i' = getQ b c' i' := by
  by_cases hcc : c = c'
  · subst hcc
    have hii : (i : ℤ) ≠ i' := h.resolve_left (fun hh => hh rfl)
    unfold getQ
    by_cases h0 : 0 ≤ i'
    · simp only [if_pos h0]
      by_cases hlt : c < b.length
      · rw [row_bufSet_self b c i x hlt]
        refine getD_set_ne 0 _ i i'.toNat x (fun hh => hii ?_)
        omega
      · rw [bufSet, set_oob _ _ _ (le_of_not_lt (by simpa using hlt))]
    · simp [if_neg h0]
  · unfold getQ
    rw [row_bufSet_ne b c i x c' hcc]

/-! ### Row and fade-emission lemmas -/

theorem mapIdxQ_length (f : ℕ → ℚ → ℚ) (l : List ℚ) :
    (mapIdxQ f l).length = l.length := by
  simp [mapIdxQ, tabulate_length]

theorem copyRow_length (dst src : List ℚ) (n : ℕ) :
    (copyRow dst src n).length = dst.length := by
  simp [copyRow, mapIdxQ_length]

theorem fadeEmit_shape (fade : Buf) (ns : ℕ) :
    ∀ (m : ℕ) (out : Buf),
      (fadeEmit fade ns m out).1.length = out.length
        ∧ ∀ c, ((fadeEmit fade ns m out).1.getD c []).length = (out.getD c []).length := by
  intro m
  induction m with
  | zero => intro out; exact ⟨rfl, fun c => rfl⟩
  | succ m ih =>
    intro out
    simp only [fadeEmit]
    split
    · refine ⟨?_, fun c => ?_⟩
      · simp [(ih out).1]
      · by_cases hc : m = c
        · subst hc
          by_cases hm : m < (fadeEmit fade ns m out).1.length
          · rw [getD_set_self [] _ _ _ hm, copyRow_length, (ih out).2 m]
          · rw [set_oob _ _ _ (le_of_not_lt hm), (ih out).2 m]
        · rw [getD_set_ne [] _ _ _ _ hc, (ih out).2 c]
    · exact ih out

theorem fadeEmit_untouched (fade : Buf) (ns : ℕ) :
    ∀ (m : ℕ) (out : Buf) (c : ℕ), m ≤ c →
      (fadeEmit fade ns m out).1.getD c [] = out.getD c [] := by
  intro m
  induction m with
  | zero => intro out c _; rfl
  | succ m ih =>
    intro out c hc
    simp only [fadeEmit]
    split
    · rw [getD_set_ne [] _ _ _ _ (by omega), ih out c (by omega)]
    · exact ih out c (by omega)

theorem fadeEmit_val (fade : Buf) (ns : ℕ) :
    ∀ (m : ℕ) (out : Buf) (c : ℕ), c < m → c < fade.length →
      (fadeEmit fade ns m out).1.getD c []
        = copyRow (out.getD c []) (fade.getD c []) ns := by
  intro m
  induction m with
  | zero => intro out c hc _; omega
  | succ m ih =>
    intro out c hc hcf
    simp only [fadeEmit]
    by_cases hcm : c = m
    · subst hcm
      rw [if_pos hcf]
      by_cases hm : c < out.length
      · rw [getD_set_self [] _ _ _ (by rw [(fadeEmit_shape fade ns c out).1]; exact hm),
            fadeEmit_untouched fade ns c out c le_rfl]
      · rw [set_oob _ _ _ (by rw [(fadeEmit_shape fade ns c out).1]; omega),
            fadeEmit_untouched fade ns c out c le_rfl,
            List.getD_eq_default _ _ (by omega)]
        simp [copyRow, mapIdxQ, tabulate]
    · have hlt : c < m := by omega
      split
      · rw [getD_set_ne [] _ _ _ _ (by omega), ih out c hlt hcf]
      · exact ih out c hlt hcf

theorem fadeEmit_writes (fade : Buf) (ns : ℕ) :
    ∀ (m : ℕ) (out : Buf), ∀ w ∈ (fadeEmit fade ns m out).2,
      0 ≤ w.2 ∧ w.2 < (ns : ℤ) ∧ w.1 < m := by
  intro m
  induction m with
  | zero => intro out w hw; simp [fadeEmit] at hw
  | succ m ih =>
    intro out w hw
    simp only [fadeEmit] at hw
    split at hw
    · dsimp only at hw
      rcases List.mem_append.mp hw with h | h
      · have := ih out w h
        exact ⟨this.1, this.2.1, by omega⟩
      · obtain ⟨i, hi, hx⟩ := mem_tabulate ns _ w h
        subst hx
        refine ⟨?_, ?_, ?_⟩ <;> dsimp only <;> omega
    · have := ih out w hw
      exact ⟨this.1, this.2.1, by omega⟩

/-! ### Row-level characterisation of the buffer primitives -/

theorem tabulate_congr {α : Type} :
    ∀ (n : ℕ) (f g : ℕ → α), (∀ i, i < n → f i = g i) → tabulate n f = tabulate n g
  | 0, _, _, _ => rfl
  | n + 1, f, g, h => by
    simp only [tabulate]
    rw [h 0 (by omega), tabulate_congr n _ _ (fun i hi => h (i + 1) (by omega))]

theorem getD_mapIdxQ (f : ℕ → ℚ → ℚ) (l : List ℚ) (i : ℕ) :
    (mapIdxQ f l).getD i 0 = if i < l.length then f i (l.getD i 0) else 0 := by
  by_cases h : i < l.length
  · rw [if_pos h, mapIdxQ, tabulate_getD _ _ _ _ h]
  · rw [if_neg h, mapIdxQ, tabulate_getD_ge _ _ _ _ (by omega)]

theorem getD_map_row (g : List ℚ → List ℚ) (hg : g [] = []) :
    ∀ (b : Buf) (c : ℕ), (b.map g).getD c [] = g (b.getD c [])
  | [], c => by simp [hg]
  | r :: b, 0 => rfl
  | r :: b, c + 1 => by simpa using getD_map_row g hg b c

theorem mapIdxQ_nil (f : ℕ → ℚ → ℚ) : mapIdxQ f [] = [] := rfl

theorem row_clearRange (b : Buf) (st cnt : ℕ) (c i : ℕ) :
    ((clearRange b st cnt).getD c []).getD i 0
      = if i < (b.getD c []).length then
          (if st ≤ i ∧ i < st + cnt then 0 else (b.getD c []).getD i 0)
        else 0 := by
  rw [clearRange, getD_map_row _ (mapIdxQ_nil _) b c, getD_mapIdxQ]

theorem chanLen_clearRange (b : Buf) (st cnt : ℕ) (c : ℕ) :
    ((clearRange b st cnt).getD c []).length = (b.getD c []).length := by
  rw [clearRange, getD_map_row _ (mapIdxQ_nil _) b c, mapIdxQ_length]

theorem row_clearAll (b : Buf) (c : ℕ) :
    (clearAll b).getD c [] = tabulate ((b.getD c []).length) (fun _ => 0) := by
  rw [clearAll, getD_map_row _ (mapIdxQ_nil _) b c]
  rfl

theorem chanLen_clearAll (b : Buf) (c : ℕ) :
    ((clearAll b).getD c []).length = (b.getD c []).length := by
  rw [row_clearAll, tabulate_length]

theorem length_clearAll (b : Buf) : (clearAll b).length = b.length := by
  simp [clearAll]

theorem length_clearRange (b : Buf) (st cnt : ℕ) :
    (clearRange b st cnt).length = b.length := by
  simp [clearRange]

theorem length_applyGainRamp (b : Buf) (ch st cnt : ℕ) (g0 g1 : ℚ) :
    (applyGainRamp b ch st cnt g0 g1).length = b.length := by
  simp [applyGainRamp]

theorem chanLen_applyGainRamp (b : Buf) (ch st cnt : ℕ) (g0 g1 : ℚ) (c : ℕ) :
    ((applyGainRamp b ch st cnt g0 g1).getD c []).length = (b.getD c []).length := by
  by_cases hc : ch = c
  · subst hc
    by_cases hl : ch < b.length
    · rw [applyGainRamp, getD_set_self [] _ _ _ hl, mapIdxQ_length]
    · rw [applyGainRamp, set_oob _ _ _ (le_of_not_lt (by simpa using hl))]
  · rw [applyGainRamp, getD_set_ne [] _ _ _ _ hc]

theorem row_applyGainRamp (b : Buf) (ch st cnt : ℕ) (g0 g1 : ℚ) (c i : ℕ) :
    ((applyGainRamp b ch st cnt g0 g1).getD c []).getD i 0
      = if c = ch ∧ st ≤ i ∧ i < st + cnt ∧ i < (b.getD c []).length then
          (b.getD c []).getD i 0
            * (g0 + (g1 - g0) * ((i - st : ℕ) : ℚ) / (cnt : ℚ))
        else (b.getD c []).getD i 0 := by
  by_cases hc : c = ch
  · subst hc
    by_cases hl : c < b.length
    · rw [applyGainRamp, getD_set_self [] _ _ _ hl, getD_mapIdxQ]
      by_cases hi : i < (b.getD c []).length
      · rw [if_pos hi]
        by_cases hr : st ≤ i ∧ i < st + cnt
        · rw [if_pos hr, if_pos ⟨rfl, hr.1, hr.2, hi⟩]
        · rw [if_neg hr, if_neg (by tauto)]
      · rw [if_neg hi, if_neg (by tauto), List.getD_eq_default _ _ (by omega)]
    · have hd : (b.getD c []) = [] := List.getD_eq_default _ _ (by omega)
      rw [applyGainRamp, set_oob _ _ _ (le_of_not_lt (by simpa using hl)),
        if_neg (by rw [hd]; simp)]
  · rw [applyGainRamp, getD_set_ne [] _ _ _ _ (fun h => hc h.symm), if_neg (by tauto)]

theorem row_applyGainRamp_ne (b : Buf) (ch st cnt : ℕ) (g0 g1 : ℚ) (c : ℕ) (h : c ≠ ch) :
    (applyGainRamp b ch st cnt g0 g1).getD c [] = b.getD c [] := by
  rw [applyGainRamp, getD_set_ne [] _ _ _ _ (fun hh => h hh.symm)]

theorem getD_applyGainRamp_self (b : Buf) (ch st cnt : ℕ) (g0 g1 : ℚ) (i : ℕ) :
    ((applyGainRamp b ch st cnt g0 g1).getD ch []).getD i 0
      = if st ≤ i ∧ i < st + cnt ∧ i < (b.getD ch []).length then
          (b.getD ch []).getD i 0
            * (g0 + (g1 - g0) * ((i - st : ℕ) : ℚ) / (cnt : ℚ))
        else (b.getD ch []).getD i 0 := by
  rw [row_applyGainRamp]
  by_cases h : st ≤ i ∧ i < st + cnt ∧ i < (b.getD ch []).length
  · rw [if_pos ⟨rfl, h.1, h.2.1, h.2.2⟩, if_pos h]
  · rw [if_neg (by tauto), if_neg h]

/-! ### Cleared-buffer invariance -/

theorem tabulate_zero_getD (n i : ℕ) :
    (tabulate n (fun _ => (0 : ℚ))).getD i 0 = 0 := by
  by_cases h : i < n
  · rw [tabulate_getD _ _ _ _ h]
  · rw [tabulate_getD_ge _ _ _ _ (by omega)]

theorem copyRow_zero (L L' n : ℕ) :
    copyRow (tabulate L (fun _ => (0 : ℚ))) (tabulate L' (fun _ => (0 : ℚ))) n
      = tabulate L (fun _ => (0 : ℚ)) := by
  rw [copyRow, mapIdxQ, tabulate_length]
  refine tabulate_congr L _ _ (fun i hi => ?_)
  rw [tabulate_getD _ _ _ _ hi, tabulate_zero_getD]
  split <;> rfl

theorem fadeEmit_cleared (fb : Buf) (ns : ℕ) :
    ∀ m : ℕ, (fadeEmit (clearAll fb) ns m (clearAll fb)).1 = clearAll fb := by
  intro m
  induction m with
  | zero => rfl
  | succ m ih =>
    simp only [fadeEmit]
    split
    · dsimp only
      rw [ih, row_clearAll, copyRow_zero, ← row_clearAll, set_getD_self]
    · exact ih

theorem applyGainRamp_cleared (fb : Buf) (ch st cnt : ℕ) (g0 g1 : ℚ) :
    applyGainRamp (clearAll fb) ch st cnt g0 g1 = clearAll fb := by
  rw [applyGainRamp]
  have hrow : mapIdxQ
      (fun i x =>
        if st ≤ i ∧ i < st + cnt then
          x * (g0 + (g1 - g0) * ((i - st : ℕ) : ℚ) / (cnt : ℚ))
        else x)
      ((clearAll fb).getD ch []) = (clearAll fb).getD ch [] := by
    rw [row_clearAll, mapIdxQ, tabulate_length]
    refine tabulate_congr _ _ _ (fun i hi => ?_)
    rw [tabulate_zero_getD]
    split <;> simp
  rw [hrow, set_getD_self]

theorem mapRows_congr {α β : Type} :
    ∀ (l : List α) (f g : α → β), (∀ a ∈ l, f a = g a) → l.map f = l.map g
  | [], _, _, _ => rfl
  | a :: l, f, g, h => by
    simp only [List.map_cons, h a (by simp)]
    rw [mapRows_congr l f g (fun x hx => h x (by simp [hx]))]

theorem clearRange_cleared (fb : Buf) (st cnt : ℕ) :
    clearRange (clearAll fb) st cnt = clearAll fb := by
  rw [clearRange, clearAll, List.map_map]
  refine mapRows_congr fb _ _ (fun row _ => ?_)
  simp only [Function.comp]
  rw [mapIdxQ, mapIdxQ, tabulate_length]
  refine tabulate_congr _ _ _ (fun i hi => ?_)
  rw [tabulate_zero_getD]
  split <;> rfl

/-! ### Playback-loop lemmas -/

theorem adsrIter_succ (M : AdsrModel A) (a : A) (k : ℕ) :
    adsrIter M (k + 1) a = adsrIter M k (M.next a).2 := rfl

theorem envAt_succ (M : AdsrModel A) (a : A) (k : ℕ) :
    envAt M a (k + 1) = envAt M (M.next a).2 k := rfl

theorem playLoop_out_shape (M : AdsrModel A) (stop : Voice A → Voice A × List ℤ)
    (snd : SamplerSound) :
    ∀ (n idx : ℕ) (cap : Bool) (v : Voice A) (out : Buf),
      (playLoop M stop snd n idx cap v out).out.length = out.length
        ∧ ∀ c, ((playLoop M stop snd n idx cap v out).out.getD c []).length
            = (out.getD c []).length := by
  intro n
  induction n with
  | zero => intro idx cap v out; exact ⟨rfl, fun c => rfl⟩
  | succ n ih =>
    intro idx cap v out
    simp only [playLoop]
    split
    · dsimp only
      refine ⟨?_, fun c => ?_⟩
      · split <;> simp only [bufSet, List.length_set]
      · split <;> simp only [chanLen_bufSet]
    · dsimp only
      refine ⟨?_, fun c => ?_⟩
      · rw [(ih _ _ _ _).1]
        split <;> simp only [bufSet, List.length_set]
      · rw [(ih _ _ _ _).2 c]
        split <;> simp only [chanLen_bufSet]

theorem playLoop_out_lower (M : AdsrModel A) (stop : Voice A → Voice A × List ℤ)
    (snd : SamplerSound) :
    ∀ (n idx : ℕ) (cap : Bool) (v : Voice A) (out : Buf) (c : ℕ) (i : ℤ), i < (idx : ℤ) →
      getQ (playLoop M stop snd n idx cap v out).out c i = getQ out c i := by
  intro n
  induction n with
  | zero => intros; rfl
  | succ n ih =>
    intro idx cap v out c i hi
    simp only [playLoop]
    split
    · dsimp only
      split
      · rw [getQ_bufSet_ne _ _ _ _ _ _ (Or.inr (by omega)),
            getQ_bufSet_ne _ _ _ _ _ _ (Or.inr (by omega))]
      · rw [getQ_bufSet_ne _ _ _ _ _ _ (Or.inr (by omega))]
    · dsimp only
      rw [ih _ _ _ _ _ _ (by omega)]
      split
      · rw [getQ_bufSet_ne _ _ _ _ _ _ (Or.inr (by omega)),
            getQ_bufSet_ne _ _ _ _ _ _ (Or.inr (by omega))]
      · rw [getQ_bufSet_ne _ _ _ _ _ _ (Or.inr (by omega))]

theorem playLoop_writes_range (M : AdsrModel A) (stop : Voice A → Voice A × List ℤ)
    (snd : SamplerSound) :
    ∀ (n idx : ℕ) (cap : Bool) (v : Voice A) (out : Buf),
      ∀ w ∈ (playLoop M stop snd n idx cap v out).writes,
        (idx : ℤ) ≤ w.2 ∧ w.2 < (idx : ℤ) + (n : ℤ) := by
  intro n
  induction n with
  | zero => intro idx cap v out w hw; simp [playLoop] at hw
  | succ n ih =>
    intro idx cap v out w hw
    simp only [playLoop] at hw
    split at hw
    · dsimp only at hw
      split at hw <;> simp only [List.mem_cons, List.mem_singleton] at hw
      · rcases hw with rfl | rfl | h
        · exact ⟨le_refl _, by omega⟩
        · exact ⟨le_refl _, by omega⟩
        · simp at h
      · rcases hw with rfl | h
        · exact ⟨le_refl _, by omega⟩
        · simp at h
    · dsimp only at hw
      rcases List.mem_append.mp hw with h | h
      · split at h <;> simp only [List.mem_cons, List.mem_singleton] at h
        · rcases h with rfl | rfl | h
          · exact ⟨le_refl _, by omega⟩
          · exact ⟨le_refl _, by omega⟩
          · simp at h
        · rcases h with rfl | h
          · exact ⟨le_refl _, by omega⟩
          · simp at h
      · have := ih _ _ _ _ w h
        exact ⟨by omega, by omega⟩

theorem playLoop_value0 (M : AdsrModel A) (stop : Voice A → Voice A × List ℤ)
    (snd : SamplerSound) :
    ∀ (k n idx : ℕ) (cap : Bool) (v : Voice A) (out : Buf),
      k < n →
      (∀ j : ℕ, j < k →
        v.sourceSamplePosition + ((j : ℚ) + 1) * v.pitchRate ≤ (snd.length : ℚ)) →
      0 < out.length →
      (∀ c, c < out.length → idx + n ≤ (out.getD c []).length) →
      getQ (playLoop M stop snd n idx cap v out).out 0 ((idx + k : ℕ) : ℤ)
        = getQ out 0 ((idx + k : ℕ) : ℤ)
          + (if 1 < out.length then
              frameL snd (v.sourceSamplePosition + (k : ℚ) * v.pitchRate)
                * (v.lgain * envAt M v.adsr k)
             else
              (frameL snd (v.sourceSamplePosition + (k : ℚ) * v.pitchRate)
                  * (v.lgain * envAt M v.adsr k)
                + frameR snd (v.sourceSamplePosition + (k : ℚ) * v.pitchRate)
                  * (v.rgain * envAt M v.adsr k)) * (1 / 2)) := by
  intro k
  induction k with
  | zero =>
    intro n idx cap v out hk hrun hout hlen
    obtain ⟨m, rfl⟩ : ∃ m, n = m + 1 := ⟨n - 1, by omega⟩
    have hidx : idx < (out.getD 0 []).length := by have := hlen 0 hout; omega
    have hp : v.sourceSamplePosition + ((0 : ℕ) : ℚ) * v.pitchRate
        = v.sourceSamplePosition := by push_cast; ring
    simp only [Nat.add_zero, hp]
    by_cases hst : 1 < out.length
    · simp only [playLoop, if_pos hst]
      split
      · dsimp only
        rw [getQ_bufSet_ne _ _ _ _ _ _ (Or.inl (by omega)),
          getQ_bufSet_self out 0 idx _ hout hidx]
        rfl
      · dsimp only
        rw [playLoop_out_lower M stop snd m (idx + 1) false _ _ 0 _ (by
            push_cast; omega),
          getQ_bufSet_ne _ _ _ _ _ _ (Or.inl (by omega)),
          getQ_bufSet_self out 0 idx _ hout hidx]
        rfl
    · simp only [playLoop, if_neg hst]
      split
      · dsimp only
        rw [getQ_bufSet_self out 0 idx _ hout hidx]
        rfl
      · dsimp only
        rw [playLoop_out_lower M stop snd m (idx + 1) false _ _ 0 _ (by
            push_cast; omega),
          getQ_bufSet_self out 0 idx _ hout hidx]
        rfl
  | succ k ih =>
    intro n idx cap v out hk hrun hout hlen
    obtain ⟨m, rfl⟩ : ∃ m, n = m + 1 := ⟨n - 1, by omega⟩
    have hnostop : ¬ (v.sourceSamplePosition + v.pitchRate > (snd.length : ℚ)) := by
      have h0 := hrun 0 (by omega)
      push_cast at h0
      rw [not_lt]
      linarith
    have hcast : ((idx + (k + 1) : ℕ) : ℤ) = ((idx + 1 + k : ℕ) : ℤ) := by push_cast; ring
    have hpos : ∀ q : ℚ, v.sourceSamplePosition + v.pitchRate + q * v.pitchRate
        = v.sourceSamplePosition + (q + 1) * v.pitchRate := by intro q; ring
    by_cases hst : 1 < out.length
    · simp only [playLoop, if_pos hst, if_neg hnostop]
      rw [hcast]
      refine Eq.trans (ih (m) (idx + 1) false _ _ (by omega) ?_ ?_ ?_) ?_
      · intro j hj
        dsimp only
        rw [hpos ((j : ℚ) + 1)]
        have e : ((j : ℚ) + 1 + 1) = (((j + 1 : ℕ) : ℚ) + 1) := by push_cast; ring
        rw [e]
        exact hrun (j + 1) (by omega)
      · simp only [bufSet, List.length_set]; exact hout
      · intro c hc
        rw [chanLen_bufSet, chanLen_bufSet]
        have hc' : c < out.length := by simpa [bufSet] using hc
        have := hlen c hc'
        omega
      · rw [getQ_bufSet_ne _ _ _ _ _ _ (Or.inr (by push_cast; omega)),
          getQ_bufSet_ne _ _ _ _ _ _ (Or.inr (by push_cast; omega))]
        simp only [bufSet, List.length_set]
        rw [if_pos hst, ← hcast]
        have hq : v.sourceSamplePosition + v.pitchRate + (k : ℚ) * v.pitchRate
            = v.sourceSamplePosition + ((k + 1 : ℕ) : ℚ) * v.pitchRate := by push_cast; ring
        rw [hq, ← envAt_succ]
    · simp only [playLoop, if_neg hst, if_neg hnostop]
      rw [hcast]
      refine Eq.trans (ih (m) (idx + 1) false _ _ (by omega) ?_ ?_ ?_) ?_
      · intro j hj
        dsimp only
        rw [hpos ((j : ℚ) + 1)]
        have e : ((j : ℚ) + 1 + 1) = (((j + 1 : ℕ) : ℚ) + 1) := by push_cast; ring
        rw [e]
        exact hrun (j + 1) (by omega)
      · simp only [bufSet, List.length_set]; exact hout
      · intro c hc
        rw [chanLen_bufSet]
        have hc' : c < out.length := by simpa [bufSet] using hc
        have := hlen c hc'
        omega
      · rw [getQ_bufSet_ne _ _ _ _ _ _ (Or.inr (by push_cast; omega))]
        simp only [bufSet, List.length_set]
        rw [if_neg hst, ← hcast]
        have hq : v.sourceSamplePosition + v.pitchRate + (k : ℚ) * v.pitchRate
            = v.sourceSamplePosition + ((k + 1 : ℕ) : ℚ) * v.pitchRate := by push_cast; ring
        rw [hq, ← envAt_succ]

theorem playLoop_value1 (M : AdsrModel A) (stop : Voice A → Voice A × List ℤ)
    (snd : SamplerSound) :
    ∀ (k n idx : ℕ) (cap : Bool) (v : Voice A) (out : Buf),
      k < n →
      (∀ j : ℕ, j < k →
        v.sourceSamplePosition + ((j : ℚ) + 1) * v.pitchRate ≤ (snd.length : ℚ)) →
      1 < out.length →
      (∀ c, c < out.length → idx + n ≤ (out.getD c []).length) →
      getQ (playLoop M stop snd n idx cap v out).out 1 ((idx + k : ℕ) : ℤ)
        = getQ out 1 ((idx + k : ℕ) : ℤ)
          + frameR snd (v.sourceSamplePosition + (k : ℚ) * v.pitchRate)
            * (v.rgain * envAt M v.adsr k) := by
  intro k
  induction k with
  | zero =>
    intro n idx cap v out hk hrun hst hlen
    obtain ⟨m, rfl⟩ : ∃ m, n = m + 1 := ⟨n - 1, by omega⟩
    have hidx : idx < ((bufSet out 0 idx
        (getQ out 0 (idx : ℤ)
          + (getQ (snd.data.getD []) 0 (cTrunc v.sourceSamplePosition)
              * (1 - (v.sourceSamplePosition - ((cTrunc v.sourceSamplePosition : ℤ) : ℚ)))
            + getQ (snd.data.getD []) 0 (cTrunc v.sourceSamplePosition + 1)
              * (v.sourceSamplePosition - ((cTrunc v.sourceSamplePosition : ℤ) : ℚ)))
            * (v.lgain * (M.next v.adsr).1))).getD 1 []).length := by
      rw [chanLen_bufSet]
      have := hlen 1 hst
      omega
    have hc1 : 1 < (bufSet out 0 idx
        (getQ out 0 (idx : ℤ)
          + (getQ (snd.data.getD []) 0 (cTrunc v.sourceSamplePosition)
              * (1 - (v.sourceSamplePosition - ((cTrunc v.sourceSamplePosition : ℤ) : ℚ)))
            + getQ (snd.data.getD []) 0 (cTrunc v.sourceSamplePosition + 1)
              * (v.sourceSamplePosition - ((cTrunc v.sourceSamplePosition : ℤ) : ℚ)))
            * (v.lgain * (M.next v.adsr).1))).length := by
      simp only [bufSet, List.length_set]
      exact hst
    have hp : v.sourceSamplePosition + ((0 : ℕ) : ℚ) * v.pitchRate
        = v.sourceSamplePosition := by push_cast; ring
    simp only [Nat.add_zero, hp]
    simp only [playLoop, if_pos hst]
    split
    · dsimp only
      rw [getQ_bufSet_self _ 1 idx _ hc1 hidx]
      rfl
    · dsimp only
      rw [playLoop_out_lower M stop snd m (idx + 1) false _ _ 1 _ (by push_cast; omega),
        getQ_bufSet_self _ 1 idx _ hc1 hidx]
      rfl
  | succ k ih =>
    intro n idx cap v out hk hrun hst hlen
    obtain ⟨m, rfl⟩ : ∃ m, n = m + 1 := ⟨n - 1, by omega⟩
    have hnostop : ¬ (v.sourceSamplePosition + v.pitchRate > (snd.length : ℚ)) := by
      have h0 := hrun 0 (by omega)
      push_cast at h0
      rw [not_lt]
      linarith
    have hcast : ((idx + (k + 1) : ℕ) : ℤ) = ((idx + 1 + k : ℕ) : ℤ) := by push_cast; ring
    have hpos : ∀ q : ℚ, v.sourceSamplePosition + v.pitchRate + q * v.pitchRate
        = v.sourceSamplePosition + (q + 1) * v.pitchRate := by intro q; ring
    simp only [playLoop, if_pos hst, if_neg hnostop]
    rw [hcast]
    refine Eq.trans (ih (m) (idx + 1) false _ _ (by omega) ?_ ?_ ?_) ?_
    · intro j hj
      dsimp only
      rw [hpos ((j : ℚ) + 1)]
      have e : ((j : ℚ) + 1 + 1) = (((j + 1 : ℕ) : ℚ) + 1) := by push_cast; ring
      rw [e]
      exact hrun (j + 1) (by omega)
    · simp only [bufSet, List.length_set]; exact hst
    · intro c hc
      rw [chanLen_bufSet, chanLen_bufSet]
      have hc' : c < out.length := by simpa [bufSet] using hc
      have := hlen c hc'
      omega
    · rw [getQ_bufSet_ne _ _ _ _ _ _ (Or.inr (by push_cast; omega)),
        getQ_bufSet_ne _ _ _ _ _ _ (Or.inr (by push_cast; omega)),
        ← hcast]
      have hq : v.sourceSamplePosition + v.pitchRate + (k : ℚ) * v.pitchRate
          = v.sourceSamplePosition + ((k + 1 : ℕ) : ℚ) * v.pitchRate := by push_cast; ring
      rw [hq, ← envAt_succ]

theorem advance_one (M : AdsrModel A) (v : Voice A) (cap : Bool) :
    advance M v cap 1
      = { v with sourceSamplePosition := v.sourceSamplePosition + v.pitchRate,
                 adsr := (M.next v.adsr).2,
                 startingGain := if cap then (M.next v.adsr).1 else v.startingGain } := by
  simp only [advance]
  have e : v.sourceSamplePosition + ((1 : ℕ) : ℚ) * v.pitchRate
      = v.sourceSamplePosition + v.pitchRate := by push_cast; ring
  rw [e]
  rfl

theorem advance_shift (M : AdsrModel A) (v : Voice A) (cap : Bool) (m : ℕ) :
    advance M
      { v with sourceSamplePosition := v.sourceSamplePosition + v.pitchRate,
               adsr := (M.next v.adsr).2,
               startingGain := if cap then (M.next v.adsr).1 else v.startingGain }
      false (m + 1)
      = advance M v cap (m + 1 + 1) := by
  simp only [advance]
  have e : v.sourceSamplePosition + v.pitchRate + ((m + 1 : ℕ) : ℚ) * v.pitchRate
      = v.sourceSamplePosition + ((m + 1 + 1 : ℕ) : ℚ) * v.pitchRate := by push_cast; ring
  rw [e]
  rfl

theorem playLoop_stop (M : AdsrModel A) (stop : Voice A → Voice A × List ℤ)
    (snd : SamplerSound) :
    ∀ (k n idx : ℕ) (cap : Bool) (v : Voice A) (out : Buf),
      k < n →
      (∀ j : ℕ, j < k →
        v.sourceSamplePosition + ((j : ℚ) + 1) * v.pitchRate ≤ (snd.length : ℚ)) →
      (snd.length : ℚ) < v.sourceSamplePosition + ((k : ℚ) + 1) * v.pitchRate →
      (playLoop M stop snd n idx cap v out).voice = (stop (advance M v cap (k + 1))).1
        ∧ ∀ w ∈ (playLoop M stop snd n idx cap v out).writes,
            w.2 ≤ (idx : ℤ) + (k : ℤ) := by
  intro k
  induction k with
  | zero =>
    intro n idx cap v out hk hrun hstop
    obtain ⟨m, rfl⟩ : ∃ m, n = m + 1 := ⟨n - 1, by omega⟩
    have hcond : (snd.length : ℚ) < v.sourceSamplePosition + v.pitchRate := by
      push_cast at hstop
      linarith
    simp only [playLoop]
    split
    · constructor
      · dsimp only
        rw [show (0 + 1 : ℕ) = 1 from rfl, advance_one]
      · intro w hw
        dsimp only at hw
        split at hw <;> simp only [List.mem_cons, List.mem_singleton] at hw
        · rcases hw with rfl | rfl | h
          · omega
          · omega
          · simp at h
        · rcases hw with rfl | h
          · omega
          · simp at h
    · next h => exact absurd hcond h
  | succ k ih =>
    intro n idx cap v out hk hrun hstop
    obtain ⟨m, rfl⟩ : ∃ m, n = m + 1 := ⟨n - 1, by omega⟩
    have hnostop : ¬ (v.sourceSamplePosition + v.pitchRate > (snd.length : ℚ)) := by
      have h0 := hrun 0 (by omega)
      push_cast at h0
      rw [not_lt]
      linarith
    simp only [playLoop, if_neg hnostop]
    have key := ih m (idx + 1) false
      { v with sourceSamplePosition := v.sourceSamplePosition + v.pitchRate,
               adsr := (M.next v.adsr).2,
               startingGain := if cap then (M.next v.adsr).1 else v.startingGain }
      (if 1 < out.length then
        bufSet (bufSet out 0 idx
          (getQ out 0 (idx : ℤ)
            + (getQ (snd.data.getD []) 0 (cTrunc v.sourceSamplePosition)
                * (1 - (v.sourceSamplePosition - ((cTrunc v.sourceSamplePosition : ℤ) : ℚ)))
              + getQ (snd.data.getD []) 0 (cTrunc v.sourceSamplePosition + 1)
                * (v.sourceSamplePosition - ((cTrunc v.sourceSamplePosition : ℤ) : ℚ)))
              * (v.lgain * (M.next v.adsr).1)))
          1 idx
          (getQ out 1 (idx : ℤ)
            + (if 1 < (snd.data.getD []).length then
                getQ (snd.data.getD []) 1 (cTrunc v.sourceSamplePosition)
                  * (1 - (v.sourceSamplePosition - ((cTrunc v.sourceSamplePosition : ℤ) : ℚ)))
                + getQ (snd.data.getD []) 1 (cTrunc v.sourceSamplePosition + 1)
                  * (v.sourceSamplePosition - ((cTrunc v.sourceSamplePosition : ℤ) : ℚ))
              else
                getQ (snd.data.getD []) 0 (cTrunc v.sourceSamplePosition)
                  * (1 - (v.sourceSamplePosition - ((cTrunc v.sourceSamplePosition : ℤ) : ℚ)))
                + getQ (snd.data.getD []) 0 (cTrunc v.sourceSamplePosition + 1)
                  * (v.sourceSamplePosition - ((cTrunc v.sourceSamplePosition : ℤ) : ℚ)))
              * (v.rgain * (M.next v.adsr).1))
       else
        bufSet out 0 idx
          (getQ out 0 (idx : ℤ)
            + ((getQ (snd.data.getD []) 0 (cTrunc v.sourceSamplePosition)
                * (1 - (v.sourceSamplePosition - ((cTrunc v.sourceSamplePosition : ℤ) : ℚ)))
              + getQ (snd.data.getD []) 0 (cTrunc v.sourceSamplePosition + 1)
                * (v.sourceSamplePosition - ((cTrunc v.sourceSamplePosition : ℤ) : ℚ)))
                * (v.lgain * (M.next v.adsr).1)
              + (if 1 < (snd.data.getD []).length then
                  getQ (snd.data.getD []) 1 (cTrunc v.sourceSamplePosition)
                    * (1 - (v.sourceSamplePosition - ((cTrunc v.sourceSamplePosition : ℤ) : ℚ)))
                  + getQ (snd.data.getD []) 1 (cTrunc v.sourceSamplePosition + 1)
                    * (v.sourceSamplePosition - ((cTrunc v.sourceSamplePosition : ℤ) : ℚ))
                else
                  getQ (snd.data.getD []) 0 (cTrunc v.sourceSamplePosition)
                    * (1 - (v.sourceSamplePosition - ((cTrunc v.sourceSamplePosition : ℤ) : ℚ)))
                  + getQ (snd.data.getD []) 0 (cTrunc v.sourceSamplePosition + 1)
                    * (v.sourceSamplePosition - ((cTrunc v.sourceSamplePosition : ℤ) : ℚ)))
                * (v.rgain * (M.next v.adsr).1)) * (1 / 2)))
      (by omega)
      (by
        intro j hj
        dsimp only
        have e : v.sourceSamplePosition + v.pitchRate + ((j : ℚ) + 1) * v.pitchRate
            = v.sourceSamplePosition + (((j + 1 : ℕ) : ℚ) + 1) * v.pitchRate := by
          push_cast; ring
        rw [e]
        exact hrun (j + 1) (by omega))
      (by
        dsimp only
        have e : v.sourceSamplePosition + v.pitchRate + ((k : ℚ) + 1) * v.pitchRate
            = v.sourceSamplePosition + (((k + 1 : ℕ) : ℚ) + 1) * v.pitchRate := by
          push_cast; ring
        rw [e]
        push_cast
        push_cast at hstop
        linarith)
    constructor
    · rw [key.1, advance_shift]
    · intro w hw
      rcases List.mem_append.mp hw with h | h
      · split at h <;> simp only [List.mem_cons, List.mem_singleton] at h
        · rcases h with rfl | rfl | hh
          · omega
          · omega
          · simp at hh
        · rcases h with rfl | hh
          · omega
          · simp at hh
      · have := key.2 w h
        omega

theorem playLoop_pitchRate_id (M : AdsrModel A) (snd : SamplerSound) :
    ∀ (n idx : ℕ) (cap : Bool) (v : Voice A) (out : Buf),
      (playLoop M (fun s => (s, [])) snd n idx cap v out).voice.pitchRate
        = v.pitchRate := by
  intro n
  induction n with
  | zero => intros; rfl
  | succ n ih =>
    intro idx cap v out
    simp only [playLoop]
    split
    · rfl
    · dsimp only
      rw [ih]

theorem renderCore_pitchRate_id (M : AdsrModel A) (v : Voice A) (out : Buf)
    (startSample numSamples : ℕ) :
    (renderCore M (fun s => (s, [])) v out startSample numSamples).voice.pitchRate
      = v.pitchRate := by
  unfold renderCore
  split
  · rfl
  · split
    · exact playLoop_pitchRate_id M _ _ _ _ _ _
    · rfl

theorem renderCore_out_shape (M : AdsrModel A) (stop : Voice A → Voice A × List ℤ)
    (v : Voice A) (out : Buf) (startSample numSamples : ℕ) :
    (renderCore M stop v out startSample numSamples).out.length = out.length
      ∧ ∀ c, ((renderCore M stop v out startSample numSamples).out.getD c []).length
          = (out.getD c []).length := by
  unfold renderCore
  split
  · dsimp only
    exact fadeEmit_shape v.fadeBuffer numSamples out.length out
  · split
    · exact playLoop_out_shape M stop _ numSamples startSample true v out
    · exact ⟨rfl, fun c => rfl⟩

theorem endSample_toNat_le (bs : ℕ) (p : ℚ) :
    (if p < 1 then cTrunc ((bs : ℚ) * p) else (bs : ℤ)).toNat ≤ bs := by
  split
  · rename_i h
    by_cases h0 : 0 ≤ (bs : ℚ) * p
    · rw [cTrunc, if_pos h0]
      have h1 : (bs : ℚ) * p ≤ ((bs : ℕ) : ℚ) := by
        calc (bs : ℚ) * p ≤ (bs : ℚ) * 1 :=
              mul_le_mul_of_nonneg_left (le_of_lt h) (by positivity)
          _ = (bs : ℚ) := by ring
      have h2 : ⌊(bs : ℚ) * p⌋ ≤ (bs : ℤ) := by
        calc ⌊(bs : ℚ) * p⌋ ≤ ⌊((bs : ℕ) : ℚ)⌋ := Int.floor_le_floor h1
          _ = (bs : ℤ) := by exact_mod_cast Int.floor_natCast bs
      omega
    · rw [cTrunc, if_neg h0]
      have h2 : 0 ≤ ⌊-((bs : ℚ) * p)⌋ := Int.floor_nonneg.mpr (by linarith)
      omega
  · simp

/-! ### Stratification soundness

`stopNoteHard` models the nested `renderNextBlock (*fadeBuffer, 0,
bufferSize)` with an identity stop action.  The lemmas below show this
is exact: while `renderingFade` is set (as it is throughout that nested
call) the real recursive `stopNote (0, false)` is the identity, and
`renderCore` only applies its stop action to states whose
`renderingFade` flag equals the caller's. -/

theorem stopNoteHard_guard (M : AdsrModel A) (v : Voice A) (h : v.renderingFade = true) :
    stopNoteHard M v = (v, []) := by
  simp [stopNoteHard, h]

theorem playLoop_congr (M : AdsrModel A) (stop1 stop2 : Voice A → Voice A × List ℤ)
    (snd : SamplerSound)
    (h : ∀ s, s.renderingFade = true → stop1 s = stop2 s) :
    ∀ (n idx : ℕ) (cap : Bool) (v : Voice A) (out : Buf), v.renderingFade = true →
      playLoop M stop1 snd n idx cap v out = playLoop M stop2 snd n idx cap v out := by
  intro n
  induction n with
  | zero => intro idx cap v out _; rfl
  | succ n ih =>
    intro idx cap v out hrf
    simp only [playLoop]
    split
    · rw [h]
      exact hrf
    · rw [ih]
      exact hrf

theorem renderCore_congr (M : AdsrModel A) (stop1 stop2 : Voice A → Voice A × List ℤ)
    (h : ∀ s, s.renderingFade = true → stop1 s = stop2 s)
    (v : Voice A) (out : Buf) (startSample numSamples : ℕ) (hrf : v.renderingFade = true) :
    renderCore M stop1 v out startSample numSamples
      = renderCore M stop2 v out startSample numSamples := by
  unfold renderCore
  split
  · rfl
  · cases hs : v.currentSound with
    | none => rfl
    | some snd => exact playLoop_congr M stop1 stop2 snd h _ _ _ _ _ hrf

/-! ### Claim theorems -/

/-- C10: `startNote` with a sound that is not a `SamplerSound` leaves the
entire voice state unchanged (only the debug assertion fires in the
source); the call is a no-op. -/
theorem claim10_wrong_variant_noop (M : AdsrModel A) (pow2 : ℚ → ℚ) (v : Voice A)
    (midiNoteNumber : ℤ) (velocity : ℚ) :
    startNote M pow2 v midiNoteNumber velocity SynthesiserSound.other = v := rfl

/-- C9: after `startNote` with a `SamplerSound`, the pitch step is
`pow2 ((note − root)/12) · sourceRate / hostRate` (1 at the root with
matching rates, 2 one octave up), the read position is 0, both gains
equal the velocity, and the ADSR is configured with the sound's
parameters at the sound's source rate before its note-on transition. -/
theorem claim9_start_note (M : AdsrModel A) (pow2 : ℚ → ℚ) (v : Voice A)
    (note : ℤ) (velocity : ℚ) (snd : SamplerSound)
    (hp0 : pow2 0 = 1) (hp1 : pow2 1 = 2) :
    (startNote M pow2 v note velocity (SynthesiserSound.sampler snd)).pitchRate
        = pow2 (((note - snd.midiRootNote : ℤ) : ℚ) / 12)
            * snd.sourceSampleRate / v.hostSampleRate
    ∧ (startNote M pow2 v note velocity (SynthesiserSound.sampler snd)).sourceSamplePosition = 0
    ∧ (startNote M pow2 v note velocity (SynthesiserSound.sampler snd)).lgain = velocity
    ∧ (startNote M pow2 v note velocity (SynthesiserSound.sampler snd)).rgain = velocity
    ∧ (startNote M pow2 v note velocity (SynthesiserSound.sampler snd)).adsr
        = M.noteOn (M.setParameters snd.params (M.setSampleRate snd.sourceSampleRate v.adsr))
    ∧ (note = snd.midiRootNote → snd.sourceSampleRate = v.hostSampleRate →
        v.hostSampleRate ≠ 0 →
        (startNote M pow2 v note velocity (SynthesiserSound.sampler snd)).pitchRate = 1)
    ∧ (note = snd.midiRootNote + 12 → snd.sourceSampleRate = v.hostSampleRate →
        v.hostSampleRate ≠ 0 →
        (startNote M pow2 v note velocity (SynthesiserSound.sampler snd)).pitchRate = 2) := by
  refine ⟨rfl, rfl, rfl, rfl, rfl, ?_, ?_⟩
  · intro hroot hrate hne
    subst hroot
    simp only [startNote, sub_self, Int.cast_zero, zero_div, hp0, one_mul, hrate]
    exact div_self hne
  · intro hroot hrate hne
    subst hroot
    simp only [startNote, add_sub_cancel_left, hrate]
    norm_num [hp1]
    rw [mul_div_assoc, div_self hne, mul_one]

/-- C9 witness: concrete instantiation at the root note with matching
48 kHz rates. -/
theorem claim9_witness :
    pow2W 0 = 1 ∧ pow2W 1 = 2 ∧
    ((startNote demoAdsr pow2W v9 60 1 (SynthesiserSound.sampler sndX)).pitchRate
        = pow2W (((60 - sndX.midiRootNote : ℤ) : ℚ) / 12)
            * sndX.sourceSampleRate / v9.hostSampleRate
      ∧ (startNote demoAdsr pow2W v9 60 1 (SynthesiserSound.sampler sndX)).sourceSamplePosition = 0
      ∧ (startNote demoAdsr pow2W v9 60 1 (SynthesiserSound.sampler sndX)).lgain = 1
      ∧ (startNote demoAdsr pow2W v9 60 1 (SynthesiserSound.sampler sndX)).rgain = 1
      ∧ (startNote demoAdsr pow2W v9 60 1 (SynthesiserSound.sampler sndX)).adsr
          = demoAdsr.noteOn (demoAdsr.setParameters sndX.params
              (demoAdsr.setSampleRate sndX.sourceSampleRate v9.adsr))
      ∧ (60 = sndX.midiRootNote → sndX.sourceSampleRate = v9.hostSampleRate →
          v9.hostSampleRate ≠ 0 →
          (startNote demoAdsr pow2W v9 60 1 (SynthesiserSound.sampler sndX)).pitchRate = 1)
      ∧ (60 = sndX.midiRootNote + 12 → sndX.sourceSampleRate = v9.hostSampleRate →
          v9.hostSampleRate ≠ 0 →
          (startNote demoAdsr pow2W v9 60 1 (SynthesiserSound.sampler sndX)).pitchRate = 2)) :=
  ⟨by decide, by decide,
    claim9_start_note demoAdsr pow2W v9 60 1 sndX (by decide) (by decide)⟩

/-- Fields of a completed hard stop: `isFading` set, note detached. -/
theorem stopNoteHard_fields (M : AdsrModel A) (v : Voice A) (h : v.renderingFade = false) :
    (stopNoteHard M v).1.isFading = true ∧ (stopNoteHard M v).1.currentSound = none := by
  simp [stopNoteHard, h]

/-- C1: in the playback branch, every processed output frame `k` receives
exactly the linearly interpolated source sample at position
`pos₀ + k·pitch` (right = left for mono sounds), scaled by
`lgain·env` / `rgain·env` with `env` the `k`-th ADSR sample, accumulated
(added) into the stereo channels, or their average accumulated into a
mono output. -/
theorem claim1_interpolation (M : AdsrModel A) (snd : SamplerSound) (v : Voice A)
    (out : Buf) (s n k : ℕ)
    (hF : v.isFading = false) (hS : v.currentSound = some snd)
    (hk : k < n)
    (hrun : ∀ j : ℕ, j < k →
      v.sourceSamplePosition + ((j : ℚ) + 1) * v.pitchRate ≤ (snd.length : ℚ))
    (hout : 0 < out.length)
    (hlen : ∀ c, c < out.length → s + n ≤ (out.getD c []).length) :
    (getQ (renderNextBlock M v out s n).out 0 ((s + k : ℕ) : ℤ)
        = getQ out 0 ((s + k : ℕ) : ℤ)
          + (if 1 < out.length then
              frameL snd (v.sourceSamplePosition + (k : ℚ) * v.pitchRate)
                * (v.lgain * envAt M v.adsr k)
             else
              (frameL snd (v.sourceSamplePosition + (k : ℚ) * v.pitchRate)
                  * (v.lgain * envAt M v.adsr k)
                + frameR snd (v.sourceSamplePosition + (k : ℚ) * v.pitchRate)
                  * (v.rgain * envAt M v.adsr k)) * (1 / 2)))
      ∧ (1 < out.length →
          getQ (renderNextBlock M v out s n).out 1 ((s + k : ℕ) : ℤ)
            = getQ out 1 ((s + k : ℕ) : ℤ)
              + frameR snd (v.sourceSamplePosition + (k : ℚ) * v.pitchRate)
                * (v.rgain * envAt M v.adsr k)) := by
  simp only [renderNextBlock, renderCore, hF, Bool.false_eq_true, if_false, hS]
  exact ⟨playLoop_value0 M _ snd k n s true v out hk hrun hout hlen,
    fun h2 => playLoop_value1 M _ snd k n s true v out hk hrun h2 hlen⟩

/-- C1 witness: `vW1` plays `sndW1` (frames 3, 5, 7) at pitch step 1/2
with constant envelope 2 into a mono buffer holding 10s; frame 1 of the
render receives `10 + ((3·½+5·½)·2 + (3·½+5·½)·2)/2 = 18`. -/
theorem claim1_witness :
    vW1.isFading = false ∧ vW1.currentSound = some sndW1 ∧ 1 < 2 ∧
    ((getQ (renderNextBlock demoAdsr vW1 [[10, 10, 10]] 0 2).out 0 ((0 + 1 : ℕ) : ℤ)
        = getQ [[10, 10, 10]] 0 ((0 + 1 : ℕ) : ℤ)
          + (if 1 < ([[10, 10, 10]] : Buf).length then
              frameL sndW1 (vW1.sourceSamplePosition + ((1 : ℕ) : ℚ) * vW1.pitchRate)
                * (vW1.lgain * envAt demoAdsr vW1.adsr 1)
             else
              (frameL sndW1 (vW1.sourceSamplePosition + ((1 : ℕ) : ℚ) * vW1.pitchRate)
                  * (vW1.lgain * envAt demoAdsr vW1.adsr 1)
                + frameR sndW1 (vW1.sourceSamplePosition + ((1 : ℕ) : ℚ) * vW1.pitchRate)
                  * (vW1.rgain * envAt demoAdsr vW1.adsr 1)) * (1 / 2)))
      ∧ (1 < ([[10, 10, 10]] : Buf).length →
          getQ (renderNextBlock demoAdsr vW1 [[10, 10, 10]] 0 2).out 1 ((0 + 1 : ℕ) : ℤ)
            = getQ [[10, 10, 10]] 1 ((0 + 1 : ℕ) : ℤ)
              + frameR sndW1 (vW1.sourceSamplePosition + ((1 : ℕ) : ℚ) * vW1.pitchRate)
                * (vW1.rgain * envAt demoAdsr vW1.adsr 1))) :=
  ⟨rfl, rfl, by omega,
    claim1_interpolation demoAdsr sndW1 vW1 [[10, 10, 10]] 0 2 1 rfl rfl (by omega)
      (by
        intro j hj
        interval_cases j
        norm_num [vW1, sndW1])
      (by norm_num)
      (by
        intro c hc
        have hc0 : c = 0 := by simp at hc; omega
        subst hc0
        simp)⟩

/-- C2 (amended): the playback and no-sound branches only write inside
`output[c][startSample .. startSample+numSamples)`; the fade-emission
branch instead writes only inside `output[c][0 .. numSamples)`,
regardless of `startSample` (these coincide when `startSample = 0`). -/
theorem claim2_amended (M : AdsrModel A) (v : Voice A) (out : Buf) (s n : ℕ) :
    (v.isFading = true → writesWithin (renderNextBlock M v out s n).writes 0 n)
      ∧ (v.isFading = false → writesWithin (renderNextBlock M v out s n).writes s n) := by
  constructor
  · intro h
    simp only [renderNextBlock, renderCore, h, if_true]
    intro w hw
    have hb := fadeEmit_writes v.fadeBuffer n out.length out w hw
    exact ⟨by simpa using hb.1, by simpa using hb.2.1⟩
  · intro h
    simp only [renderNextBlock, renderCore, h, Bool.false_eq_true, if_false]
    cases hs : v.currentSound with
    | none => intro w hw; simp at hw
    | some snd =>
      intro w hw
      exact playLoop_writes_range M _ snd n s true v out w hw

/-- C2 witness: a playback render at `startSample = 1`, `numSamples = 2`
writes only inside the window `[1, 3)`. -/
theorem claim2_witness :
    vPlay.isFading = false ∧
    writesWithin (renderNextBlock demoAdsr vPlay [[0, 0, 0], [0, 0, 0]] 1 2).writes 1 2 :=
  ⟨rfl, (claim2_amended demoAdsr vPlay [[0, 0, 0], [0, 0, 0]] 1 2).2 rfl⟩

/-- C7: when the position advanced past `length` at loop step `k`, the
voice invokes the hard stop on the advanced state and terminates the
block: no output frame beyond `startSample + k` is written, and
afterwards `isFading` is set and the note reference is cleared. -/
theorem claim7_auto_stop (M : AdsrModel A) (snd : SamplerSound) (v : Voice A)
    (out : Buf) (s n k : ℕ)
    (hF : v.isFading = false) (hS : v.currentSound = some snd)
    (hRF : v.renderingFade = false)
    (hk : k < n)
    (hrun : ∀ j : ℕ, j < k →
      v.sourceSamplePosition + ((j : ℚ) + 1) * v.pitchRate ≤ (snd.length : ℚ))
    (hstop : (snd.length : ℚ) < v.sourceSamplePosition + ((k : ℚ) + 1) * v.pitchRate) :
    (renderNextBlock M v out s n).voice = (stopNoteHard M (advance M v true (k + 1))).1
      ∧ (∀ w ∈ (renderNextBlock M v out s n).writes, w.2 ≤ (s : ℤ) + (k : ℤ))
      ∧ (renderNextBlock M v out s n).voice.isFading = true
      ∧ (renderNextBlock M v out s n).voice.currentSound = none := by
  have hmain :
      (renderNextBlock M v out s n).voice = (stopNoteHard M (advance M v true (k + 1))).1
        ∧ ∀ w ∈ (renderNextBlock M v out s n).writes, w.2 ≤ (s : ℤ) + (k : ℤ) := by
    simp only [renderNextBlock, renderCore, hF, Bool.false_eq_true, if_false, hS]
    exact playLoop_stop M _ snd k n s true v out hk hrun hstop
  have hfields := stopNoteHard_fields M (advance M v true (k + 1)) (by
    simpa [advance] using hRF)
  exact ⟨hmain.1, hmain.2, by rw [hmain.1]; exact hfields.1, by rw [hmain.1]; exact hfields.2⟩

/-- C7 witness: `v7` plays a 1-frame sound at unity pitch; step `k = 1`
of a 3-frame render overruns, the block stops after frame 1 and the
voice ends fading with the note detached. -/
theorem claim7_witness :
    v7.isFading = false ∧ v7.currentSound = some snd7 ∧ v7.renderingFade = false ∧
    ((renderNextBlock demoAdsr v7 [[0, 0, 0]] 0 3).voice
        = (stopNoteHard demoAdsr (advance demoAdsr v7 true (1 + 1))).1
      ∧ (∀ w ∈ (renderNextBlock demoAdsr v7 [[0, 0, 0]] 0 3).writes,
          w.2 ≤ ((0 : ℕ) : ℤ) + ((1 : ℕ) : ℤ))
      ∧ (renderNextBlock demoAdsr v7 [[0, 0, 0]] 0 3).voice.isFading = true
      ∧ (renderNextBlock demoAdsr v7 [[0, 0, 0]] 0 3).voice.currentSound = none) :=
  ⟨rfl, rfl, rfl,
    claim7_auto_stop demoAdsr snd7 v7 [[0, 0, 0]] 0 3 1 rfl rfl rfl (by omega)
      (by
        intro j hj
        interval_cases j
        norm_num [v7, snd7])
      (by norm_num [v7, snd7])⟩

/-- C6: a hard stop with `renderingFade` clear zeroes the fade buffer,
renders one `bufferSize`-frame block into it with `renderingFade` set,
computes `endSample = bufferSize` when the pitch step is at least 1 and
`trunc (bufferSize · pitch)` otherwise, multiplies `[0, endSample)` of
channels 0 and 1 by a linear ramp from the captured `startingGain` down
to 0, zeroes `[endSample, bufferSize)`, and finally sets `isFading`,
detaches the note and resets the envelope. -/
theorem claim6_hard_stop (M : AdsrModel A) (v : Voice A) (vel : ℚ)
    (hrf : v.renderingFade = false) :
    (let r := renderCore M (fun s => (s, []))
        { v with fadeBuffer := clearAll v.fadeBuffer, renderingFade := true }
        (clearAll v.fadeBuffer) 0 v.bufferSize
     let endSample : ℤ :=
       if v.pitchRate < 1 then cTrunc ((v.bufferSize : ℚ) * v.pitchRate)
       else (v.bufferSize : ℤ)
     (stopNote M v vel false).1.isFading = true
     ∧ (stopNote M v vel false).1.currentSound = none
     ∧ (stopNote M v vel false).1.adsr = M.reset r.voice.adsr
     ∧ ∀ c : ℕ, c < 2 → ∀ i : ℕ,
         (((stopNote M v vel false).1.fadeBuffer).getD c []).getD i 0
           = if i < (r.out.getD c []).length then
               (if (i : ℤ) < endSample then
                  (r.out.getD c []).getD i 0
                    * (r.voice.startingGain
                        + (0 - r.voice.startingGain) * ((i - 0 : ℕ) : ℚ)
                          / ((endSample.toNat : ℕ) : ℚ))
                else if i < v.bufferSize then 0
                else (r.out.getD c []).getD i 0)
             else 0) := by
  have hpr : (renderCore M (fun s => (s, []))
      { v with fadeBuffer := clearAll v.fadeBuffer, renderingFade := true }
      (clearAll v.fadeBuffer) 0 v.bufferSize).voice.pitchRate = v.pitchRate :=
    (renderCore_pitchRate_id M _ _ 0 v.bufferSize).trans rfl
  have hsh := renderCore_out_shape M (fun s => (s, []))
      { v with fadeBuffer := clearAll v.fadeBuffer, renderingFade := true }
      (clearAll v.fadeBuffer) 0 v.bufferSize
  have hesle := endSample_toNat_le v.bufferSize v.pitchRate
  have h01 : (0 : ℕ) ≠ 1 := by omega
  have h10 : (1 : ℕ) ≠ 0 := by omega
  simp only [stopNote, Bool.false_eq_true, if_false, stopNoteHard, hrf]
  refine ⟨trivial, trivial, trivial, ?_⟩
  intro c hc i
  have hlen0 := hsh.2 0
  have hlen1 := hsh.2 1
  rw [chanLen_clearAll] at hlen0
  rw [chanLen_clearAll] at hlen1
  rw [hpr, row_clearRange]
  simp only [length_applyGainRamp, chanLen_applyGainRamp, hsh.1, length_clearAll, hlen0, hlen1]
  by_cases hfb : 1 < v.fadeBuffer.length
  · simp only [if_pos hfb]
    by_cases hplt : v.pitchRate < 1
    · simp only [if_pos hplt] at hesle ⊢
      interval_cases c
      · rw [row_applyGainRamp_ne _ _ _ _ _ _ _ h01, getD_applyGainRamp_self]
        simp only [chanLen_applyGainRamp, hlen0]
        split_ifs <;> first | rfl | ring1 | omega | (exfalso; omega)
      · rw [getD_applyGainRamp_self]
        simp only [row_applyGainRamp_ne _ _ _ _ _ _ _ h10, chanLen_applyGainRamp, hlen1]
        split_ifs <;> first | rfl | ring1 | omega | (exfalso; omega)
    · simp only [if_neg hplt] at hesle ⊢
      interval_cases c
      · rw [row_applyGainRamp_ne _ _ _ _ _ _ _ h01, getD_applyGainRamp_self]
        simp only [chanLen_applyGainRamp, hlen0]
        split_ifs <;> first | rfl | ring1 | omega | (exfalso; omega)
      · rw [getD_applyGainRamp_self]
        simp only [row_applyGainRamp_ne _ _ _ _ _ _ _ h10, chanLen_applyGainRamp, hlen1]
        split_ifs <;> first | rfl | ring1 | omega | (exfalso; omega)
  · simp only [if_neg hfb]
    have hrow1 : v.fadeBuffer.getD 1 [] = [] := List.getD_eq_default _ _ (by omega)
    by_cases hplt : v.pitchRate < 1
    · simp only [if_pos hplt] at hesle ⊢
      interval_cases c
      · rw [getD_applyGainRamp_self]
        simp only [chanLen_applyGainRamp, hlen0]
        split_ifs <;> first | rfl | ring1 | omega | (exfalso; omega)
      · simp only [row_applyGainRamp_ne _ _ _ _ _ _ _ h10, chanLen_applyGainRamp, hlen1, hrow1,
          List.length_nil]
        split_ifs <;> first | rfl | ring1 | omega | (exfalso; omega) | simp
    · simp only [if_neg hplt] at hesle ⊢
      interval_cases c
      · rw [getD_applyGainRamp_self]
        simp only [chanLen_applyGainRamp, hlen0]
        split_ifs <;> first | rfl | ring1 | omega | (exfalso; omega)
      · simp only [row_applyGainRamp_ne _ _ _ _ _ _ _ h10, chanLen_applyGainRamp, hlen1, hrow1,
          List.length_nil]
        split_ifs <;> first | rfl | ring1 | omega | (exfalso; omega) | simp


/-- C6 witness: the hard stop applied to the concrete playing voice
`vPlay`. -/
theorem claim6_witness :
    vPlay.renderingFade = false ∧
    (let r := renderCore demoAdsr (fun s => (s, []))
        { vPlay with fadeBuffer := clearAll vPlay.fadeBuffer, renderingFade := true }
        (clearAll vPlay.fadeBuffer) 0 vPlay.bufferSize
     let endSample : ℤ :=
       if vPlay.pitchRate < 1 then cTrunc ((vPlay.bufferSize : ℚ) * vPlay.pitchRate)
       else (vPlay.bufferSize : ℤ)
     (stopNote demoAdsr vPlay 0 false).1.isFading = true
     ∧ (stopNote demoAdsr vPlay 0 false).1.currentSound = none
     ∧ (stopNote demoAdsr vPlay 0 false).1.adsr = demoAdsr.reset r.voice.adsr
     ∧ ∀ c : ℕ, c < 2 → ∀ i : ℕ,
         (((stopNote demoAdsr vPlay 0 false).1.fadeBuffer).getD c []).getD i 0
           = if i < (r.out.getD c []).length then
               (if (i : ℤ) < endSample then
                  (r.out.getD c []).getD i 0
                    * (r.voice.startingGain
                        + (0 - r.voice.startingGain) * ((i - 0 : ℕ) : ℚ)
                          / ((endSample.toNat : ℕ) : ℚ))
                else if i < vPlay.bufferSize then 0
                else (r.out.getD c []).getD i 0)
             else 0) :=
  ⟨rfl, claim6_hard_stop demoAdsr vPlay 0 rfl⟩

/-- C2 counterexample: with a pending fade and `startSample = 1`,
`numSamples = 1`, the fade-emission branch writes output frame 0, which
lies outside the window `[1, 2)`. -/
theorem claim2_counterexample :
    ¬ writesWithin (renderNextBlock demoAdsr vFadePending [[0, 0], [0, 0]] 1 1).writes 1 1 := by
  decide

/-- C3 counterexample: after a first hard stop (`vStopped`, whose fade
buffer holds the pending ramp and whose `isFading` flag is set), a
second `stopNote (0, false)` changes the fade buffer (it zeroes the
pending ramp), so the second hard stop is not effect-free. -/
theorem claim3_counterexample :
    vStopped.isFading = true ∧ vStopped.renderingFade = false ∧
    (stopNote demoAdsr vStopped 0 false).1.fadeBuffer ≠ vStopped.fadeBuffer := by
  norm_num [vStopped, stopNote, stopNoteHard, renderCore, playLoop, fadeEmit, clearAll, clearRange,
    applyGainRamp, copyRow, mapIdxQ, tabulate, bufSet, getQ, cTrunc, writesRow, demoAdsr, vPlay,
    sndX, Int.toNat_natCast]

/-- C4 counterexample: a 10-frame source truncated to `length = 5` by
the cap yields a data buffer whose frame at index `length` holds source
data (1), not zero. -/
theorem claim4_counterexample :
    snd4.length < src4.lengthInSamples ∧ getQ (snd4.data.getD []) 0 snd4.length ≠ 0 := by
  norm_num [snd4, src4, makeSamplerSound, readInto, tabulate, getQ, cTrunc, Int.toNat_natCast]
  all_goals try simp

/-- C5 at the failing input: playing an 8-frame sound (12 allocated
frames) at pitch step 4, one render invocation performs a data read at
frame index 13, which exceeds `length + 3 = 11` — the read lies beyond
the `length + 4` allocated frames.  The read happens in the nested
fade-generation render triggered by the auto-stop, which enters the
interpolation loop with `sourceSamplePosition = 12 > length`. -/
theorem claim5_overrun_read :
    (13 : ℤ) ∈ (renderNextBlock demoAdsr v5 [[0, 0, 0]] 0 3).reads ∧
    (((snd5.data.getD []).getD 0 []).length : ℤ) = snd5.length + 4 ∧
    snd5.length + 4 ≤ 13 := by
  norm_num [renderNextBlock, renderCore, stopNoteHard, playLoop, fadeEmit, clearAll, clearRange,
    applyGainRamp, copyRow, mapIdxQ, tabulate, bufSet, getQ, cTrunc, writesRow, demoAdsr, v5, snd5,
    Int.toNat_natCast]

/-- C8 counterexample: with a pending fade and a new note already armed
on the same voice, the render after the fade emission takes the playback
branch and writes non-silent output, although no `startNote` intervened
between the two renders. -/
theorem claim8_counterexample :
    (renderNextBlock demoAdsr
        (renderNextBlock demoAdsr vFadePending [[0, 0], [0, 0]] 0 2).voice
        [[0, 0], [0, 0]] 0 2).writes ≠ [] ∧
    (renderNextBlock demoAdsr
        (renderNextBlock demoAdsr vFadePending [[0, 0], [0, 0]] 0 2).voice
        [[0, 0], [0, 0]] 0 2).out ≠ [[0, 0], [0, 0]] := by
  norm_num [renderNextBlock, renderCore, stopNoteHard, playLoop, fadeEmit, clearAll, clearRange,
    applyGainRamp, copyRow, mapIdxQ, tabulate, bufSet, getQ, cTrunc, writesRow, demoAdsr,
    vFadePending, vPlay, sndX, Int.toNat_natCast]
  all_goals try simp

/-- C3 (amended): a second `stopNote (_, false)` while `renderingFade`
is set has no effect at all (the reentrancy guard); a second one while
only `isFading` is set (fade pending) leaves `isFading`,
`startingGain`, the note reference and the ADSR state (the envelope was
already reset, and resetting it again is assumed to be a no-op)
unchanged — but it clears the fade buffer to zero, destroying the
pending fade ramp, so it is not effect-free. -/
theorem claim3_amended (M : AdsrModel A) (v : Voice A) (vel vel2 : ℚ)
    (h1 : v.isFading = true) (h2 : v.renderingFade = false) (h3 : v.currentSound = none)
    (h4 : M.reset v.adsr = v.adsr) :
    (stopNote M v vel false).1 = { v with fadeBuffer := clearAll v.fadeBuffer }
      ∧ (∀ u : Voice A, u.renderingFade = true → stopNote M u vel2 false = (u, [])) := by
  constructor
  · obtain ⟨bs, fb, pr, pos, lg, rg, ad, sg, isf, rf, cs, hsr⟩ := v
    simp only at h1 h2 h3 h4
    subst h1
    subst h2
    subst h3
    simp [stopNote, stopNoteHard, renderCore, fadeEmit_cleared, applyGainRamp_cleared,
      clearRange_cleared, h4]
  · intro u hu
    simp [stopNote, stopNoteHard, hu]

/-- C3 witness: the second hard stop applied to `vStopped`, the concrete
voice left by a first hard stop. -/
theorem claim3_witness :
    vStopped.isFading = true ∧ vStopped.renderingFade = false ∧
    vStopped.currentSound = none ∧ demoAdsr.reset vStopped.adsr = vStopped.adsr ∧
    ((stopNote demoAdsr vStopped 0 false).1
        = { vStopped with fadeBuffer := clearAll vStopped.fadeBuffer }
      ∧ (∀ u : Voice (List ℚ), u.renderingFade = true →
          stopNote demoAdsr u 1 false = (u, []))) := by
  have h1 : vStopped.isFading = true := by
    norm_num [vStopped, stopNote, stopNoteHard, renderCore, playLoop, fadeEmit, clearAll,
      clearRange, applyGainRamp, copyRow, mapIdxQ, tabulate, bufSet, getQ, cTrunc, writesRow,
      demoAdsr, vPlay, sndX, Int.toNat_natCast]
  have h2 : vStopped.renderingFade = false := by
    norm_num [vStopped, stopNote, stopNoteHard, renderCore, playLoop, fadeEmit, clearAll,
      clearRange, applyGainRamp, copyRow, mapIdxQ, tabulate, bufSet, getQ, cTrunc, writesRow,
      demoAdsr, vPlay, sndX, Int.toNat_natCast]
  have h3 : vStopped.currentSound = none := by
    norm_num [vStopped, stopNote, stopNoteHard, renderCore, playLoop, fadeEmit, clearAll,
      clearRange, applyGainRamp, copyRow, mapIdxQ, tabulate, bufSet, getQ, cTrunc, writesRow,
      demoAdsr, vPlay, sndX, Int.toNat_natCast]
  have h4 : demoAdsr.reset vStopped.adsr = vStopped.adsr := by
    norm_num [vStopped, stopNote, stopNoteHard, renderCore, playLoop, fadeEmit, clearAll,
      clearRange, applyGainRamp, copyRow, mapIdxQ, tabulate, bufSet, getQ, cTrunc, writesRow,
      demoAdsr, vPlay, sndX, Int.toNat_natCast]
  exact ⟨h1, h2, h3, h4, claim3_amended demoAdsr vStopped 0 1 h1 h2 h3 h4⟩

/-- C4 (amended): a sound built from a positive-rate, positive-length
source (with a nonnegative length cap) allocates `min 2 numChannels`
channels of exactly `length + 4` frames, with `length ≤
source.lengthInSamples`; every frame at an index at or past
`source.lengthInSamples` is zero.  In particular the four trailing
frames are zero when the source was not truncated; when it was
truncated (`length < lengthInSamples`), frames in `[length,
min (lengthInSamples, length+4))` hold source data instead. -/
theorem claim4_amended (soundName : String) (source : AudioFormatReader) (notes : List ℤ)
    (root : ℤ) (atk rel maxLen : ℚ)
    (hr : 0 < source.sampleRate) (hl : 0 < source.lengthInSamples) (hm : 0 ≤ maxLen) :
    (makeSamplerSound soundName source notes root atk rel maxLen).data.isSome = true
    ∧ ((makeSamplerSound soundName source notes root atk rel maxLen).data.getD []).length
        = min 2 source.numChannels
    ∧ (∀ c, c < ((makeSamplerSound soundName source notes root atk rel maxLen).data.getD []).length →
        ((((makeSamplerSound soundName source notes root atk rel maxLen).data.getD
            []).getD c []).length : ℤ)
          = (makeSamplerSound soundName source notes root atk rel maxLen).length + 4)
    ∧ (makeSamplerSound soundName source notes root atk rel maxLen).length
        ≤ source.lengthInSamples
    ∧ (∀ (c : ℕ) (i : ℤ), source.lengthInSamples ≤ i →
        getQ ((makeSamplerSound soundName source notes root atk rel maxLen).data.getD []) c i
          = 0) := by
  have htr : 0 ≤ cTrunc (maxLen * source.sampleRate) := by
    rw [cTrunc, if_pos (by positivity)]
    exact Int.floor_nonneg.mpr (by positivity)
  have hlen : 0 ≤ min source.lengthInSamples (cTrunc (maxLen * source.sampleRate)) := by omega
  simp only [makeSamplerSound,
    if_pos (⟨hr, hl⟩ : source.sampleRate > 0 ∧ source.lengthInSamples > 0)]
  refine ⟨rfl, ?_, ?_, ?_, ?_⟩
  · simp [readInto, tabulate_length]
  · intro c hc
    simp only [readInto, tabulate_length, Option.getD_some] at hc ⊢
    rw [tabulate_getD _ _ _ _ hc, tabulate_length]
    omega
  · omega
  · intro c i hi
    have hi0 : 0 ≤ i := by omega
    simp only [getQ, if_pos hi0, Option.getD_some, readInto]
    by_cases hc : c < min 2 source.numChannels
    · rw [tabulate_getD _ _ _ _ hc]
      by_cases hidx : i.toNat
          < (min source.lengthInSamples (cTrunc (maxLen * source.sampleRate)) + 4).toNat
      · rw [tabulate_getD _ _ _ _ hidx, if_neg (by omega)]
      · rw [tabulate_getD_ge _ _ _ _ (by omega)]
    · rw [tabulate_getD_ge _ _ _ _ (by omega)]
      rfl

/-- C4 witness: the 2-frame source `srcW4` with a 10-second cap at rate
1 (no truncation). -/
theorem claim4_witness :
    (0 : ℚ) < srcW4.sampleRate ∧ (0 : ℤ) < srcW4.lengthInSamples ∧ (0 : ℚ) ≤ 10 ∧
    ((makeSamplerSound sName srcW4 [] 60 0 0 10).data.isSome = true
    ∧ ((makeSamplerSound sName srcW4 [] 60 0 0 10).data.getD []).length
        = min 2 srcW4.numChannels
    ∧ (∀ c, c < ((makeSamplerSound sName srcW4 [] 60 0 0 10).data.getD []).length →
        ((((makeSamplerSound sName srcW4 [] 60 0 0 10).data.getD []).getD c []).length : ℤ)
          = (makeSamplerSound sName srcW4 [] 60 0 0 10).length + 4)
    ∧ (makeSamplerSound sName srcW4 [] 60 0 0 10).length ≤ srcW4.lengthInSamples
    ∧ (∀ (c : ℕ) (i : ℤ), srcW4.lengthInSamples ≤ i →
        getQ ((makeSamplerSound sName srcW4 [] 60 0 0 10).data.getD []) c i = 0)) :=
  ⟨by norm_num [srcW4], by norm_num [srcW4], by norm_num,
    claim4_amended sName srcW4 [] 60 0 0 10 (by norm_num [srcW4]) (by norm_num [srcW4])
      (by norm_num)⟩

/-- C8 (amended): when `isFading` is set at entry, the render clears it
and, for each output channel the fade buffer also has, copies
(overwrites) `fadeBuffer[c][0 .. numSamples)` into
`output[c][0 .. numSamples)`; afterwards, provided the voice has no
currently playing sound (no `startNote` occurred since the hard stop),
any further render without a new note writes nothing at all. -/
theorem claim8_amended (M : AdsrModel A) (v : Voice A) (out : Buf) (s n : ℕ)
    (hF : v.isFading = true) (hNone : v.currentSound = none) :
    (renderNextBlock M v out s n).voice.isFading = false
    ∧ (∀ c, c < out.length → c < v.fadeBuffer.length → ∀ i : ℕ, i < n →
        i < (out.getD c []).length →
        getQ (renderNextBlock M v out s n).out c (i : ℤ) = getQ v.fadeBuffer c (i : ℤ))
    ∧ (∀ (out2 : Buf) (s2 n2 : ℕ),
        renderNextBlock M (renderNextBlock M v out s n).voice out2 s2 n2
          = ⟨(renderNextBlock M v out s n).voice, out2, [], []⟩) := by
  refine ⟨?_, ?_, ?_⟩
  · simp [renderNextBlock, renderCore, hF]
  · intro c hco hcf i hn hlen
    simp only [renderNextBlock, renderCore, hF, if_true]
    rw [getQ_natCast, fadeEmit_val v.fadeBuffer n out.length out c hco hcf,
      copyRow, getD_mapIdxQ, if_pos hlen, if_pos hn, getQ_natCast]
  · intro out2 s2 n2
    simp [renderNextBlock, renderCore, hF, hNone]

/-- C8 witness: emitting the fade pending on `vStopped` into a buffer
of 9s, then rendering again: the second render writes nothing. -/
theorem claim8_witness :
    vStopped.isFading = true ∧ vStopped.currentSound = none ∧
    ((renderNextBlock demoAdsr vStopped [[9, 9], [9, 9]] 0 2).voice.isFading = false
    ∧ (∀ c, c < ([[9, 9], [9, 9]] : Buf).length → c < vStopped.fadeBuffer.length →
        ∀ i : ℕ, i < 2 → i < (([[9, 9], [9, 9]] : Buf).getD c []).length →
        getQ (renderNextBlock demoAdsr vStopped [[9, 9], [9, 9]] 0 2).out c (i : ℤ)
          = getQ vStopped.fadeBuffer c (i : ℤ))
    ∧ (∀ (out2 : Buf) (s2 n2 : ℕ),
        renderNextBlock demoAdsr
            (renderNextBlock demoAdsr vStopped [[9, 9], [9, 9]] 0 2).voice out2 s2 n2
          = ⟨(renderNextBlock demoAdsr vStopped [[9, 9], [9, 9]] 0 2).voice,
              out2, [], []⟩)) := by
  have h1 : vStopped.isFading = true := by
    norm_num [vStopped, stopNote, stopNoteHard, renderCore, playLoop, fadeEmit, clearAll,
      clearRange, applyGainRamp, copyRow, mapIdxQ, tabulate, bufSet, getQ, cTrunc, writesRow,
      demoAdsr, vPlay, sndX, Int.toNat_natCast]
  have h2 : vStopped.currentSound = none := by
    norm_num [vStopped, stopNote, stopNoteHard, renderCore, playLoop, fadeEmit, clearAll,
      clearRange, applyGainRamp, copyRow, mapIdxQ, tabulate, bufSet, getQ, cTrunc, writesRow,
      demoAdsr, vPlay, sndX, Int.toNat_natCast]
  exact ⟨h1, h2, claim8_amended demoAdsr vStopped [[9, 9], [9, 9]] 0 2 h1 h2⟩

end Sampler
